import Mathlib

/-
  Verification development for the optimizer core of the quasi-newton-demo
  repository (src/core/linalg, src/core/line-search, src/core/optimizers).

  Embedding conventions:
  * JavaScript numbers are modelled as exact rationals; decimal literals of
    the source (1e-6, 0.5, ...) become the corresponding exact rationals and
    float rounding is not modelled.
  * Math.sqrt is an external primitive and is modelled as an explicit
    function parameter `msqrt`; theorems about control flow quantify over
    it.  Concrete instances use `ratSqrt` below, which agrees with the real
    square root on every perfect-square argument that appears in the
    concrete traces.
  * Vectors are lists of rationals, matrices are lists of row lists, as in
    src/core/linalg/types.ts.  Per the spec (sections 3, 4.1, 7), operand
    dimensions always conform and a mismatch is a programming error with
    undefined behaviour; elementwise JS loops `a.map((v,i) => v + b[i])`
    are therefore rendered with `List.zipWith`, and out-of-range reads use
    `List.getD` with default 0.
  * Mutation of a shared array (push then patch of the last element, or
    in-place row updates in Gauss-Jordan elimination) is rendered by
    consing/propagating the final value of the array.
  * `Partial<...>` parameter records become structures of `Option` fields;
    the spread `{ ...defaults, ...params }` becomes `Option.getD` with the
    default value.
  * JS `x ?? y` becomes `Option.getD`, `null` becomes `none`.
-/

namespace QND

/-- Vectors: readonly number arrays (src/core/linalg/types.ts). -/
abbrev Vec := List ℚ

/-- Matrices: row-major readonly 2D arrays (src/core/linalg/types.ts). -/
abbrev Mat := List (List ℚ)

/-- Entry read `m[i][j]` with the out-of-range default 0. -/
def getE (m : Mat) (i j : ℕ) : ℚ := (m.getD i []).getD j 0

/-! ### src/core/linalg/vector.ts -/

/-- `add(a, b)`: elementwise sum, JS `a.map((v, i) => v + b[i])`. -/
def add (a b : Vec) : Vec := List.zipWith (fun v w => v + w) a b

/-- `sub(a, b)`: elementwise difference, JS `a.map((v, i) => v - b[i])`. -/
def sub (a b : Vec) : Vec := List.zipWith (fun v w => v - w) a b

/-- `scale(v, s)`: JS `v.map((x) => x * s)`. -/
def scale (v : Vec) (s : ℚ) : Vec := v.map (fun x => x * s)

/-- `dot(a, b)`: JS `a.reduce((sum, v, i) => sum + v * b[i], 0)`. -/
def dot (a b : Vec) : ℚ := (List.zipWith (fun v w => v * w) a b).sum

/-- `norm(v) = Math.sqrt(dot(v, v))`; `msqrt` models Math.sqrt. -/
def norm (msqrt : ℚ → ℚ) (v : Vec) : ℚ := msqrt (dot v v)

/-- `outer(a, b)`: JS `a.map((ai) => b.map((bj) => ai * bj))`. -/
def outer (a b : Vec) : Mat := a.map (fun ai => b.map (fun bj => ai * bj))

/-- `matVec(m, v)`: JS `m.map((row) => dot(row, v))`. -/
def matVec (m : Mat) (v : Vec) : Vec := m.map (fun row => dot row v)

/-! ### src/core/linalg/matrix.ts -/

/-- `identity(n)`: JS `Array.from` over rows and columns. -/
def identity (n : ℕ) : Mat :=
  (List.range n).map (fun i => (List.range n).map (fun j => if i = j then (1 : ℚ) else 0))

/-- Matrix `add(a, b)`: elementwise, JS `a.map((row,i) => row.map((v,j) => v + b[i][j]))`. -/
def matAdd (a b : Mat) : Mat := List.zipWith (fun r s => List.zipWith (fun v w => v + w) r s) a b

/-- Matrix `scale(m, s)`: JS `m.map((row) => row.map((v) => v * s))`. -/
def matScale (m : Mat) (s : ℚ) : Mat := m.map (fun row => row.map (fun v => v * s))

/-- Column dot product: JS `row.reduce((sum, v, k) => sum + v * b[k][j], 0)`,
the inner loop of `mul` and of the inline products in bfgsUpdate. -/
def colDot (row : Vec) (b : Mat) (j : ℕ) : ℚ :=
  (List.zipWith (fun v brow => v * List.getD brow j 0) row b).sum

/-- Matrix `mul(a, b)`: JS nested `Array.from` loops with
`sum += a[i][k] * b[k][j]` for `k` below the inner dimension. -/
def mul (a b : Mat) : Mat :=
  a.map (fun row => (List.range (b.headD []).length).map (fun j => colDot row b j))

/-- `inverse2x2(m)`: closed-form adjugate over determinant formula; returns
null when the absolute determinant is below 1e-12. -/
def inverse2x2 (m : Mat) : Option Mat :=
  let a := getE m 0 0
  let b := getE m 0 1
  let c := getE m 1 0
  let d := getE m 1 1
  let det := a * d - b * c
  if |det| < 1 / 1000000000000 then none
  else
    let invDet := 1 / det
    some [[d * invDet, -b * invDet], [-c * invDet, a * invDet]]

/-- Partial-pivot scan of `inverse`: starting from `(col, |aug[col][col]|)`,
scan rows `col+1 .. n-1` and keep the row with the largest absolute value
in the current column (strict improvement, as in the source). -/
def pivotScan (aug : Mat) (col n : ℕ) : ℕ × ℚ :=
  (List.range' (col + 1) (n - (col + 1))).foldl
    (fun mrv row =>
      let val := |getE aug row col|
      if mrv.2 < val then (row, val) else mrv)
    (col, |getE aug col col|)

/-- Row swap of the augmented matrix (`[aug[col], aug[maxRow]] = [aug[maxRow], aug[col]]`). -/
def rowSwap (m : Mat) (i j : ℕ) : Mat :=
  List.zipWith
    (fun k row => if k = i then m.getD j [] else if k = j then m.getD i [] else row)
    (List.range m.length) m

/-- Division of the pivot row by the pivot (`aug[col][j] /= pivot` for all j). -/
def normalizeRow (m : Mat) (col : ℕ) : Mat :=
  let pivot := getE m col col
  List.zipWith
    (fun k row => if k = col then row.map (fun v => v / pivot) else row)
    (List.range m.length) m

/-- Column elimination: every row except the pivot row gets
`aug[row][j] -= factor * aug[col][j]` with `factor = aug[row][col]`. -/
def eliminate (m : Mat) (col : ℕ) : Mat :=
  let prow := m.getD col []
  List.zipWith
    (fun k row =>
      if k = col then row
      else
        let factor := List.getD row col 0
        List.zipWith (fun v pv => v - factor * pv) row prow)
    (List.range m.length) m

/-- The forward-elimination loop of `inverse` over columns `col, col+1, ...`;
`fuel` counts the remaining columns (loop bound `col < n`).  Returns none as
soon as the largest pivot candidate of a column is below 1e-12. -/
def gjGo (n : ℕ) : ℕ → ℕ → Mat → Option Mat
  | 0, _, aug => some aug
  | fuel + 1, col, aug =>
    let mrv := pivotScan aug col n
    if mrv.2 < 1 / 1000000000000 then none
    else gjGo n fuel (col + 1) (eliminate (normalizeRow (rowSwap aug col mrv.1) col) col)

/-- The general Gauss-Jordan path of `inverse` (everything after the 2x2
dispatch): augment with the identity, eliminate, extract the right half. -/
def gjInversePath (m : Mat) : Option Mat :=
  let n := m.length
  let aug : Mat :=
    List.zipWith
      (fun i row => row ++ (List.range n).map (fun j => if i = j then (1 : ℚ) else 0))
      (List.range m.length) m
  match gjGo n n 0 aug with
  | none => none
  | some aug2 => some (aug2.map (fun row => row.drop n))

/-- `inverse(m)`: null for non-square input, the closed-form `inverse2x2`
for n = 2, Gauss-Jordan elimination with partial pivoting otherwise. -/
def inverse (m : Mat) : Option Mat :=
  let n := m.length
  if n ≠ (m.headD []).length then none
  else if n = 2 then inverse2x2 m
  else gjInversePath m

/-- Bool rendering of the failure criterion of the Gauss-Jordan path: some
column scan finds no pivot candidate of magnitude at least 1e-12
(the spec phrase: the largest pivot candidate falls below 1e-12). -/
def gjSmallPivot (n : ℕ) : ℕ → ℕ → Mat → Bool
  | 0, _, _ => false
  | fuel + 1, col, aug =>
    let mrv := pivotScan aug col n
    if mrv.2 < 1 / 1000000000000 then true
    else gjSmallPivot n fuel (col + 1) (eliminate (normalizeRow (rowSwap aug col mrv.1) col) col)

/-! ### src/core/line-search/types.ts -/

/-- `Partial<LineSearchParams>`: every field optional. -/
structure LineSearchParamsP where
  c1 : Option ℚ := none
  c2 : Option ℚ := none
  maxIterations : Option ℕ := none
  initialAlpha : Option ℚ := none

/-- `LineSearchResult`. -/
structure LineSearchResult where
  alpha : ℚ
  evaluations : ℕ
  success : Bool
  deriving DecidableEq

/-- Default c1 (`defaultLineSearchParams.c1 = 1e-4`). -/
def defaultC1 : ℚ := 1 / 10000

/-- Default c2 (`defaultLineSearchParams.c2 = 0.9`). -/
def defaultC2 : ℚ := 9 / 10

/-- Default line-search iteration budget (`defaultLineSearchParams.maxIterations = 50`). -/
def defaultLsMaxIterations : ℕ := 50

/-- Default initial step (`defaultLineSearchParams.initialAlpha = 1.0`). -/
def defaultInitialAlpha : ℚ := 1

/-! ### src/core/line-search/backtracking.ts -/

/-- The trial loop of `backtracking`: try the current `alpha`; accept on the
Armijo condition; otherwise halve (`tau = 0.5`) and retry while the budget
(`fuel`) lasts.  After the loop the current (already halved) `alpha` is
returned with success = false. -/
def btGo (f : Vec → ℚ) (x d : Vec) (fx dd c1 : ℚ) : ℕ → ℚ → ℕ → LineSearchResult
  | 0, alpha, evaluations => ⟨alpha, evaluations, false⟩
  | fuel + 1, alpha, evaluations =>
    let xNew := add x (scale d alpha)
    let fNew := f xNew
    if fNew ≤ fx + c1 * alpha * dd then ⟨alpha, evaluations + 1, true⟩
    else btGo f x d fx dd c1 fuel (alpha * (1 / 2)) (evaluations + 1)

/-- `backtracking(f, grad, x, direction, params)`. -/
def backtracking (f : Vec → ℚ) (grad : Vec → Vec) (x d : Vec)
    (params : LineSearchParamsP) : LineSearchResult :=
  let c1 := params.c1.getD defaultC1
  let maxIterations := params.maxIterations.getD defaultLsMaxIterations
  let initialAlpha := params.initialAlpha.getD defaultInitialAlpha
  let fx := f x
  let gx := grad x
  let directionalDerivative := dot gx d
  if 0 ≤ directionalDerivative then ⟨0, 1, false⟩
  else btGo f x d fx directionalDerivative c1 maxIterations initialAlpha 1

/-! ### src/core/line-search/wolfe.ts

The local `alphaHi` can be Infinity in principle (the source compares
`alphaHi === Infinity` before doubling); it is modelled as `Option ℚ` with
`none` standing for Infinity.  It is initialised to the finite
`initialAlpha * 2` and only ever re-assigned finite trial values, so in the
embedding `none` never actually arises (claim C10).  The convergence test
`Math.abs(alphaHi - alphaLo) < 1e-12` is false for `alphaHi = Infinity`. -/

/-- One Wolfe trial plus the shared bisection/convergence epilogue; `i` is
the loop counter and `fuel` the remaining budget. -/
def wolfeGo (f : Vec → ℚ) (grad : Vec → Vec) (x d : Vec) (fx dg0 c1 c2 : ℚ) :
    ℕ → ℕ → ℚ → Option ℚ → ℚ → ℚ → ℕ → LineSearchResult
  | 0, _, _, _, alpha, _, evaluations => ⟨alpha, evaluations, false⟩
  | fuel + 1, i, alphaLo, alphaHi, alpha, fLo, evaluations =>
    let xNew := add x (scale d alpha)
    let fNew := f xNew
    let ev1 := evaluations + 1
    let step : Sum LineSearchResult (ℚ × Option ℚ × ℚ × ℕ) :=
      if fNew > fx + c1 * alpha * dg0 ∨ (0 < i ∧ fLo ≤ fNew) then
        Sum.inr (alphaLo, some alpha, fLo, ev1)
      else
        let gNew := grad xNew
        let ev2 := ev1 + 1
        let dgNew := dot gNew d
        if |dgNew| ≤ -c2 * dg0 then Sum.inl ⟨alpha, ev2, true⟩
        else if 0 ≤ dgNew then Sum.inr (alphaLo, some alpha, fLo, ev2)
        else Sum.inr (alpha, alphaHi, fNew, ev2)
    match step with
    | Sum.inl r => r
    | Sum.inr (alphaLo2, alphaHi2, fLo2, ev) =>
      let alpha2 := match alphaHi2 with
        | none => alpha * 2
        | some hi => (alphaLo2 + hi) / 2
      let conv : Bool := match alphaHi2 with
        | none => false
        | some hi => decide (|hi - alphaLo2| < 1 / 1000000000000)
      if conv then ⟨alpha2, ev, true⟩
      else wolfeGo f grad x d fx dg0 c1 c2 fuel (i + 1) alphaLo2 alphaHi2 alpha2 fLo2 ev

/-- `wolfeLineSearch(f, grad, x, direction, params)`. -/
def wolfeLineSearch (f : Vec → ℚ) (grad : Vec → Vec) (x d : Vec)
    (params : LineSearchParamsP) : LineSearchResult :=
  let c1 := params.c1.getD defaultC1
  let c2 := params.c2.getD defaultC2
  let maxIterations := params.maxIterations.getD defaultLsMaxIterations
  let initialAlpha := params.initialAlpha.getD defaultInitialAlpha
  let fx := f x
  let gx := grad x
  let dg0 := dot gx d
  if 0 ≤ dg0 then ⟨0, 1, false⟩
  else wolfeGo f grad x d fx dg0 c1 c2 maxIterations 0 0 (some (initialAlpha * 2)) initialAlpha fx 1

/-- Instrumented copy of `wolfeGo` that additionally records every trial
step length and whether the alpha-doubling branch (taken when the upper
bracket end is Infinity) was ever executed. -/
def wolfeGoT (f : Vec → ℚ) (grad : Vec → Vec) (x d : Vec) (fx dg0 c1 c2 : ℚ) :
    ℕ → ℕ → ℚ → Option ℚ → ℚ → ℚ → ℕ → List ℚ → Bool →
    LineSearchResult × List ℚ × Bool
  | 0, _, _, _, alpha, _, evaluations, trials, doubled =>
    (⟨alpha, evaluations, false⟩, trials, doubled)
  | fuel + 1, i, alphaLo, alphaHi, alpha, fLo, evaluations, trials, doubled =>
    let trials2 := trials ++ [alpha]
    let xNew := add x (scale d alpha)
    let fNew := f xNew
    let ev1 := evaluations + 1
    let step : Sum LineSearchResult (ℚ × Option ℚ × ℚ × ℕ) :=
      if fNew > fx + c1 * alpha * dg0 ∨ (0 < i ∧ fLo ≤ fNew) then
        Sum.inr (alphaLo, some alpha, fLo, ev1)
      else
        let gNew := grad xNew
        let ev2 := ev1 + 1
        let dgNew := dot gNew d
        if |dgNew| ≤ -c2 * dg0 then Sum.inl ⟨alpha, ev2, true⟩
        else if 0 ≤ dgNew then Sum.inr (alphaLo, some alpha, fLo, ev2)
        else Sum.inr (alpha, alphaHi, fNew, ev2)
    match step with
    | Sum.inl r => (r, trials2, doubled)
    | Sum.inr (alphaLo2, alphaHi2, fLo2, ev) =>
      let doubled2 := doubled || alphaHi2.isNone
      let alpha2 := match alphaHi2 with
        | none => alpha * 2
        | some hi => (alphaLo2 + hi) / 2
      let conv : Bool := match alphaHi2 with
        | none => false
        | some hi => decide (|hi - alphaLo2| < 1 / 1000000000000)
      if conv then (⟨alpha2, ev, true⟩, trials2, doubled2)
      else wolfeGoT f grad x d fx dg0 c1 c2 fuel (i + 1) alphaLo2 alphaHi2 alpha2 fLo2 ev
        trials2 doubled2

/-- Instrumented `wolfeLineSearch`; first component is the ordinary result. -/
def wolfeLineSearchT (f : Vec → ℚ) (grad : Vec → Vec) (x d : Vec)
    (params : LineSearchParamsP) : LineSearchResult × List ℚ × Bool :=
  let c1 := params.c1.getD defaultC1
  let c2 := params.c2.getD defaultC2
  let maxIterations := params.maxIterations.getD defaultLsMaxIterations
  let initialAlpha := params.initialAlpha.getD defaultInitialAlpha
  let fx := f x
  let gx := grad x
  let dg0 := dot gx d
  if 0 ≤ dg0 then (⟨0, 1, false⟩, [], false)
  else wolfeGoT f grad x d fx dg0 c1 c2 maxIterations 0 0 (some (initialAlpha * 2)) initialAlpha
    fx 1 [] false

/-! ### src/core/functions/types.ts and src/core/optimizers/types.ts

Only the three callables of `ObjectiveFunction` are modelled; the metadata
fields (id, name, description, bounds, minima, defaultStart, dimension) are
never read by the optimizer core. -/

/-- `ObjectiveFunction`: value, gradient and Hessian callables. -/
structure ObjectiveFunction where
  value : Vec → ℚ
  gradient : Vec → Vec
  hessian : Vec → Mat

/-- `IterationState` (src/core/optimizers/types.ts). -/
structure IterationState where
  x : Vec
  fx : ℚ
  gradient : Vec
  gradientNorm : ℚ
  direction : Option Vec
  alpha : Option ℚ
  hessianApprox : Mat
  trueHessian : Mat
  iteration : ℕ
  deriving DecidableEq

/-- `OptimizationResult` (src/core/optimizers/types.ts). -/
structure OptimizationResult where
  iterations : List IterationState
  solution : Vec
  finalValue : ℚ
  converged : Bool
  functionEvaluations : ℕ
  gradientEvaluations : ℕ
  deriving DecidableEq

/-- `Partial<OptimizerParams>`. -/
structure OptimizerParamsP where
  maxIterations : Option ℕ := none
  tolerance : Option ℚ := none
  initialHessianApprox : Option Mat := none

/-- `defaultOptimizerParams.maxIterations = 100`. -/
def defaultMaxIterations : ℕ := 100

/-- `defaultOptimizerParams.tolerance = 1e-6`. -/
def defaultTolerance : ℚ := 1 / 1000000

/-! ### src/core/optimizers/gradientDescent.ts -/

/-- Loop body of `gradientDescent`; `fuel` is `maxIter + 1 - iter` so the
zero case is unreachable for runs started with `fuel = maxIter + 1`.
The push of the freshly created state followed by the patch of the last
array element is rendered by consing the patched state. -/
def gdGo (msqrt : ℚ → ℚ) (func : ObjectiveFunction) (tol : ℚ) (maxIter : ℕ) :
    ℕ → ℕ → Vec → Vec → ℕ → ℕ → OptimizationResult
  | 0, _, x, _, fe, ge => ⟨[], x, func.value x, false, fe, ge⟩
  | fuel + 1, iter, x, g, fe, ge =>
    let fx := func.value x
    let trueH := func.hessian x
    let fe1 := fe + 1
    let gradNorm := norm msqrt g
    let state : IterationState :=
      ⟨x, fx, g, gradNorm, none, none, identity x.length, trueH, iter⟩
    if gradNorm < tol then ⟨[state], x, fx, true, fe1, ge⟩
    else if iter = maxIter then ⟨[state], x, func.value x, false, fe1, ge⟩
    else
      let direction := scale g (-1)
      let ls := backtracking func.value func.gradient x direction
        { initialAlpha := some 1 }
      let fe2 := fe1 + ls.evaluations
      let patched : IterationState :=
        { state with direction := some direction, alpha := some ls.alpha }
      let xNew := add x (scale direction ls.alpha)
      let gNew := func.gradient xNew
      let ge1 := ge + 1
      let rest := gdGo msqrt func tol maxIter fuel (iter + 1) xNew gNew fe2 ge1
      { rest with iterations := patched :: rest.iterations }

/-- `gradientDescent(func, x0, params)`. -/
def gradientDescent (msqrt : ℚ → ℚ) (func : ObjectiveFunction) (x0 : Vec)
    (params : OptimizerParamsP) : OptimizationResult :=
  let maxIterations := params.maxIterations.getD defaultMaxIterations
  let tolerance := params.tolerance.getD defaultTolerance
  gdGo msqrt func tolerance maxIterations (maxIterations + 1) 0 x0 (func.gradient x0) 0 1

/-! ### src/core/optimizers/newton.ts -/

/-- Loop body of `newtonOptimize`.  At creation a state for `iter > 0`
copies `direction` and `alpha` from the previous (already patched) state;
those values are passed along as `prevDir` and `prevAlpha`. -/
def newtonGo (msqrt : ℚ → ℚ) (func : ObjectiveFunction) (tol : ℚ) (maxIter : ℕ) :
    ℕ → ℕ → Vec → Option Vec → Option ℚ → ℕ → ℕ → OptimizationResult
  | 0, _, x, _, _, fe, ge => ⟨[], x, func.value x, false, fe, ge⟩
  | fuel + 1, iter, x, prevDir, prevAlpha, fe, ge =>
    let fx := func.value x
    let g := func.gradient x
    let H := func.hessian x
    let fe1 := fe + 1
    let ge1 := ge + 1
    let gradNorm := norm msqrt g
    let Hinv := (inverse H).getD (identity x.length)
    let state : IterationState :=
      ⟨x, fx, g, gradNorm,
        (if iter = 0 then none else prevDir),
        (if iter = 0 then none else prevAlpha),
        Hinv, H, iter⟩
    if gradNorm < tol then ⟨[state], x, fx, true, fe1, ge1⟩
    else if iter = maxIter then ⟨[state], x, func.value x, false, fe1, ge1⟩
    else
      let direction := Hinv.map (fun row => -(dot row g))
      let ls := backtracking func.value func.gradient x direction
        { initialAlpha := some 1 }
      let fe2 := fe1 + 2
      let patched : IterationState :=
        { state with direction := some direction, alpha := some ls.alpha }
      let xNew := add x (scale direction ls.alpha)
      let rest := newtonGo msqrt func tol maxIter fuel (iter + 1) xNew
        (some direction) (some ls.alpha) fe2 ge1
      { rest with iterations := patched :: rest.iterations }

/-- `newtonOptimize(func, x0, params)`. -/
def newtonOptimize (msqrt : ℚ → ℚ) (func : ObjectiveFunction) (x0 : Vec)
    (params : OptimizerParamsP) : OptimizationResult :=
  let maxIterations := params.maxIterations.getD defaultMaxIterations
  let tolerance := params.tolerance.getD defaultTolerance
  newtonGo msqrt func tolerance maxIterations (maxIterations + 1) 0 x0 none none 0 0

/-! ### src/core/optimizers/bfgs.ts -/

/-- `bfgsUpdate(H, s, y)`.  JS computes `rho = 1 / dot(y, s)` and skips when
`!isFinite(rho) || rho <= 0`; under exact arithmetic `isFinite(1 / t)` is
`t != 0`, rendered by the first disjunct. -/
def bfgsUpdate (H : Mat) (s y : Vec) : Mat :=
  let rho := 1 / dot y s
  if dot y s = 0 ∨ rho ≤ 0 then H
  else
    let n := s.length
    let I := identity n
    let syT := outer s y
    let leftTerm := matAdd I (matScale syT (-rho))
    let ysT := outer y s
    let rightTerm := matAdd I (matScale ysT (-rho))
    let HRight : Mat :=
      H.map (fun row => (List.range (rightTerm.headD []).length).map
        (fun j => colDot row rightTerm j))
    let leftHRight : Mat :=
      leftTerm.map (fun row => (List.range (HRight.headD []).length).map
        (fun j => colDot row HRight j))
    let ssT := outer s s
    matAdd leftHRight (matScale ssT rho)

/-- Loop body of `bfgsOptimize`. -/
def bfgsGo (msqrt : ℚ → ℚ) (func : ObjectiveFunction) (tol : ℚ) (maxIter : ℕ) :
    ℕ → ℕ → Vec → Vec → Mat → ℕ → ℕ → OptimizationResult
  | 0, _, x, _, _, fe, ge => ⟨[], x, func.value x, false, fe, ge⟩
  | fuel + 1, iter, x, g, H, fe, ge =>
    let fx := func.value x
    let trueH := func.hessian x
    let fe1 := fe + 1
    let gradNorm := norm msqrt g
    let state : IterationState := ⟨x, fx, g, gradNorm, none, none, H, trueH, iter⟩
    if gradNorm < tol then ⟨[state], x, fx, true, fe1, ge⟩
    else if iter = maxIter then ⟨[state], x, func.value x, false, fe1, ge⟩
    else
      let direction := scale (matVec H g) (-1)
      let ls := wolfeLineSearch func.value func.gradient x direction {}
      let fe2 := fe1 + ls.evaluations
      let ge1 := ge + ls.evaluations / 2
      let patched : IterationState :=
        { state with direction := some direction, alpha := some ls.alpha }
      let xNew := add x (scale direction ls.alpha)
      let gNew := func.gradient xNew
      let ge2 := ge1 + 1
      let s := sub xNew x
      let y := sub gNew g
      let H2 := bfgsUpdate H s y
      let rest := bfgsGo msqrt func tol maxIter fuel (iter + 1) xNew gNew H2 fe2 ge2
      { rest with iterations := patched :: rest.iterations }

/-- `bfgsOptimize(func, x0, params)`. -/
def bfgsOptimize (msqrt : ℚ → ℚ) (func : ObjectiveFunction) (x0 : Vec)
    (params : OptimizerParamsP) : OptimizationResult :=
  let maxIterations := params.maxIterations.getD defaultMaxIterations
  let tolerance := params.tolerance.getD defaultTolerance
  let H0 := params.initialHessianApprox.getD (identity x0.length)
  bfgsGo msqrt func tolerance maxIterations (maxIterations + 1) 0 x0 (func.gradient x0) H0 0 1

/-! ### src/core/optimizers/dfp.ts -/

/-- `dfpUpdate(H, s, y)`. -/
def dfpUpdate (H : Mat) (s y : Vec) : Mat :=
  let sTy := dot s y
  if |sTy| < 1 / 1000000000000 then H
  else
    let Hy := matVec H y
    let yTHy := dot y Hy
    if |yTHy| < 1 / 1000000000000 then H
    else
      let ssT := outer s s
      let term1 := matScale ssT (1 / sTy)
      let HyyTH := outer Hy Hy
      let term2 := matScale HyyTH (1 / yTHy)
      matAdd (matAdd H term1) (matScale term2 (-1))

/-- Loop body of `dfpOptimize`. -/
def dfpGo (msqrt : ℚ → ℚ) (func : ObjectiveFunction) (tol : ℚ) (maxIter : ℕ) :
    ℕ → ℕ → Vec → Vec → Mat → ℕ → ℕ → OptimizationResult
  | 0, _, x, _, _, fe, ge => ⟨[], x, func.value x, false, fe, ge⟩
  | fuel + 1, iter, x, g, H, fe, ge =>
    let fx := func.value x
    let trueH := func.hessian x
    let fe1 := fe + 1
    let gradNorm := norm msqrt g
    let state : IterationState := ⟨x, fx, g, gradNorm, none, none, H, trueH, iter⟩
    if gradNorm < tol then ⟨[state], x, fx, true, fe1, ge⟩
    else if iter = maxIter then ⟨[state], x, func.value x, false, fe1, ge⟩
    else
      let direction := scale (matVec H g) (-1)
      let ls := wolfeLineSearch func.value func.gradient x direction {}
      let fe2 := fe1 + ls.evaluations
      let ge1 := ge + ls.evaluations / 2
      let patched : IterationState :=
        { state with direction := some direction, alpha := some ls.alpha }
      let xNew := add x (scale direction ls.alpha)
      let gNew := func.gradient xNew
      let ge2 := ge1 + 1
      let s := sub xNew x
      let y := sub gNew g
      let H2 := dfpUpdate H s y
      let rest := dfpGo msqrt func tol maxIter fuel (iter + 1) xNew gNew H2 fe2 ge2
      { rest with iterations := patched :: rest.iterations }

/-- `dfpOptimize(func, x0, params)`. -/
def dfpOptimize (msqrt : ℚ → ℚ) (func : ObjectiveFunction) (x0 : Vec)
    (params : OptimizerParamsP) : OptimizationResult :=
  let maxIterations := params.maxIterations.getD defaultMaxIterations
  let tolerance := params.tolerance.getD defaultTolerance
  let H0 := params.initialHessianApprox.getD (identity x0.length)
  dfpGo msqrt func tolerance maxIterations (maxIterations + 1) 0 x0 (func.gradient x0) H0 0 1

/-! ### src/core/optimizers/sr1.ts -/

/-- `sr1Update(H, s, y, skipThreshold = 1e-8)`. -/
def sr1Update (msqrt : ℚ → ℚ) (H : Mat) (s y : Vec) : Mat :=
  let skipThreshold : ℚ := 1 / 100000000
  let Hy := matVec H y
  let sMinusHy := sub s Hy
  let denom := dot sMinusHy y
  let normSMinusHy := norm msqrt sMinusHy
  let normY := norm msqrt y
  if |denom| < skipThreshold * normSMinusHy * normY then H
  else
    let update := outer sMinusHy sMinusHy
    matAdd H (matScale update (1 / denom))

/-- Loop body of `sr1Optimize`: the direction falls back to the plain
negative gradient when `dot(direction, g) >= 0`, and the line search is
always `backtracking`. -/
def sr1Go (msqrt : ℚ → ℚ) (func : ObjectiveFunction) (tol : ℚ) (maxIter : ℕ) :
    ℕ → ℕ → Vec → Vec → Mat → ℕ → ℕ → OptimizationResult
  | 0, _, x, _, _, fe, ge => ⟨[], x, func.value x, false, fe, ge⟩
  | fuel + 1, iter, x, g, H, fe, ge =>
    let fx := func.value x
    let trueH := func.hessian x
    let fe1 := fe + 1
    let gradNorm := norm msqrt g
    let state : IterationState := ⟨x, fx, g, gradNorm, none, none, H, trueH, iter⟩
    if gradNorm < tol then ⟨[state], x, fx, true, fe1, ge⟩
    else if iter = maxIter then ⟨[state], x, func.value x, false, fe1, ge⟩
    else
      let d0 := scale (matVec H g) (-1)
      let direction := if 0 ≤ dot d0 g then scale g (-1) else d0
      let ls := backtracking func.value func.gradient x direction {}
      let fe2 := fe1 + ls.evaluations
      let patched : IterationState :=
        { state with direction := some direction, alpha := some ls.alpha }
      let xNew := add x (scale direction ls.alpha)
      let gNew := func.gradient xNew
      let ge1 := ge + 1
      let s := sub xNew x
      let y := sub gNew g
      let H2 := sr1Update msqrt H s y
      let rest := sr1Go msqrt func tol maxIter fuel (iter + 1) xNew gNew H2 fe2 ge1
      { rest with iterations := patched :: rest.iterations }

/-- `sr1Optimize(func, x0, params)`. -/
def sr1Optimize (msqrt : ℚ → ℚ) (func : ObjectiveFunction) (x0 : Vec)
    (params : OptimizerParamsP) : OptimizationResult :=
  let maxIterations := params.maxIterations.getD defaultMaxIterations
  let tolerance := params.tolerance.getD defaultTolerance
  let H0 := params.initialHessianApprox.getD (identity x0.length)
  sr1Go msqrt func tolerance maxIterations (maxIterations + 1) 0 x0 (func.gradient x0) H0 0 1

/-! ### src/core/optimizers/barzilaiBotwein.ts -/

/-- Loop body of `barzilaiBotweinOptimize`; `alphaBB` is the scalar inverse
Hessian approximation carried across iterations (initially 1.0). -/
def bbGo (msqrt : ℚ → ℚ) (func : ObjectiveFunction) (tol : ℚ) (maxIter : ℕ) :
    ℕ → ℕ → Vec → Vec → ℚ → ℕ → ℕ → OptimizationResult
  | 0, _, x, _, _, fe, ge => ⟨[], x, func.value x, false, fe, ge⟩
  | fuel + 1, iter, x, g, alphaBB, fe, ge =>
    let fx := func.value x
    let trueH := func.hessian x
    let fe1 := fe + 1
    let gradNorm := norm msqrt g
    let Bk := matScale (identity x.length) alphaBB
    let state : IterationState := ⟨x, fx, g, gradNorm, none, none, Bk, trueH, iter⟩
    if gradNorm < tol then ⟨[state], x, fx, true, fe1, ge⟩
    else if iter = maxIter then ⟨[state], x, func.value x, false, fe1, ge⟩
    else
      let direction := scale g (-alphaBB)
      let stepAlpha : ℚ := 1
      let patched : IterationState :=
        { state with direction := some direction, alpha := some stepAlpha }
      let xNew := add x (scale direction stepAlpha)
      let gNew := func.gradient xNew
      let ge1 := ge + 1
      let s := sub xNew x
      let y := sub gNew g
      let sTy := dot s y
      let sTs := dot s s
      let alphaBB2 :=
        if 1 / 1000000000000 < sTy then max (1 / 10000000000) (min (sTs / sTy) 10000000000)
        else alphaBB
      let rest := bbGo msqrt func tol maxIter fuel (iter + 1) xNew gNew alphaBB2 fe1 ge1
      { rest with iterations := patched :: rest.iterations }

/-- `barzilaiBotweinOptimize(func, x0, params)`. -/
def barzilaiBotweinOptimize (msqrt : ℚ → ℚ) (func : ObjectiveFunction) (x0 : Vec)
    (params : OptimizerParamsP) : OptimizationResult :=
  let maxIterations := params.maxIterations.getD defaultMaxIterations
  let tolerance := params.tolerance.getD defaultTolerance
  bbGo msqrt func tolerance maxIterations (maxIterations + 1) 0 x0 (func.gradient x0) 1 0 1

/-! ### src/core/optimizers/trustRegion.ts -/

/-- `solveTrustRegionSubproblem(g, B, delta)` via the dogleg method. -/
def solveTrustRegionSubproblem (msqrt : ℚ → ℚ) (g : Vec) (B : Mat) (delta : ℚ) :
    Vec × Bool :=
  let n := g.length
  let Bg := B.map (fun row => dot row g)
  let gTBg := dot g Bg
  let gNorm := norm msqrt g
  if gNorm < 1 / 1000000000000 then (List.replicate n 0, false)
  else
    let tau := if gTBg ≤ 0 then delta / gNorm
      else min ((gNorm * gNorm) / gTBg) (delta / gNorm)
    let dCauchy := scale g (-tau)
    let dCauchyNorm := norm msqrt dCauchy
    match inverse B with
    | none => (dCauchy, decide (delta - 1 / 10000000000 ≤ dCauchyNorm))
    | some Binv =>
      let dNewton := Binv.map (fun row => -(dot row g))
      let dNewtonNorm := norm msqrt dNewton
      if dNewtonNorm ≤ delta then (dNewton, false)
      else
        let diff := List.zipWith (fun v cv => v - cv) dNewton dCauchy
        let a := dot diff diff
        let b := 2 * dot dCauchy diff
        let c := dot dCauchy dCauchy - delta * delta
        let discriminant := b * b - 4 * a * c
        if discriminant < 0 ∨ a < 1 / 1000000000000 then (dCauchy, true)
        else
          let tauDogleg := (-b + msqrt discriminant) / (2 * a)
          let tauClamped := max 0 (min 1 tauDogleg)
          let dDogleg := List.zipWith (fun v dv => v + tauClamped * dv) dCauchy diff
          (dDogleg, true)

/-- `quadraticModelReduction(g, B, d)`. -/
def quadraticModelReduction (g : Vec) (B : Mat) (d : Vec) : ℚ :=
  let gTd := dot g d
  let Bd := B.map (fun row => dot row d)
  let dTBd := dot d Bd
  let reduction := -(gTd + (1 / 2) * dTBd)
  reduction

/-- Loop body of `trustRegionOptimize`; `delta` is the trust region radius
(initially 1.0, capped at 10.0, acceptance threshold eta = 0.1). -/
def trGo (msqrt : ℚ → ℚ) (func : ObjectiveFunction) (tol : ℚ) (maxIter : ℕ) :
    ℕ → ℕ → Vec → ℚ → ℕ → ℕ → OptimizationResult
  | 0, _, x, _, fe, ge => ⟨[], x, func.value x, false, fe, ge⟩
  | fuel + 1, iter, x, delta, fe, ge =>
    let fx := func.value x
    let g := func.gradient x
    let H := func.hessian x
    let fe1 := fe + 1
    let ge1 := ge + 1
    let gradNorm := norm msqrt g
    let Hinv := inverse H
    let state : IterationState :=
      ⟨x, fx, g, gradNorm, none, some delta, Hinv.getD H, H, iter⟩
    if gradNorm < tol then ⟨[state], x, fx, true, fe1, ge1⟩
    else if iter = maxIter then ⟨[state], x, func.value x, false, fe1, ge1⟩
    else
      let sub1 := solveTrustRegionSubproblem msqrt g H delta
      let d := sub1.1
      let onBoundary := sub1.2
      let xNew := add x d
      let fxNew := func.value xNew
      let fe2 := fe1 + 1
      let actualReduction := fx - fxNew
      let predictedReduction := quadraticModelReduction g H d
      let rho := if 1 / 1000000000000 < predictedReduction
        then actualReduction / predictedReduction else 0
      let patched : IterationState :=
        { state with direction := some d, alpha := some delta }
      let delta2 :=
        if rho < 1 / 4 then (1 / 4) * delta
        else if 3 / 4 < rho ∧ onBoundary then min (2 * delta) 10
        else delta
      let x2 := if 1 / 10 < rho then xNew else x
      let rest := trGo msqrt func tol maxIter fuel (iter + 1) x2 delta2 fe2 ge1
      { rest with iterations := patched :: rest.iterations }

/-- `trustRegionOptimize(func, x0, params)`. -/
def trustRegionOptimize (msqrt : ℚ → ℚ) (func : ObjectiveFunction) (x0 : Vec)
    (params : OptimizerParamsP) : OptimizationResult :=
  let maxIterations := params.maxIterations.getD defaultMaxIterations
  let tolerance := params.tolerance.getD defaultTolerance
  trGo msqrt func tolerance maxIterations (maxIterations + 1) 0 x0 1 0 0

/-! ### Concrete instances used by witnesses and counterexamples -/

/-- Floor square root on naturals (largest k with k * k below or equal n),
used only to build the concrete Math.sqrt model below. -/
def natSqrtFloor (n : ℕ) : ℕ := (List.range (n + 1)).countP (fun k => k * k ≤ n) - 1

/-- Concrete model of Math.sqrt for witness runs: floor square roots of
numerator and denominator.  On every argument arising in the concrete
traces below the argument is a perfect square of a rational, where this
function agrees exactly with the real (and IEEE) square root. -/
def ratSqrt (q : ℚ) : ℚ :=
  if q ≤ 0 then 0 else (natSqrtFloor q.num.toNat : ℚ) / (natSqrtFloor q.den : ℚ)

/-- One-dimensional objective f(t) = t * t (gradient 2t, Hessian [[2]]). -/
def sqObjective : ObjectiveFunction where
  value := fun v => v.getD 0 0 * v.getD 0 0
  gradient := fun v => [2 * v.getD 0 0]
  hessian := fun _ => [[2]]

/-- One-dimensional concave objective f(t) = -(t * t). -/
def negSqObjective : ObjectiveFunction where
  value := fun v => -(v.getD 0 0 * v.getD 0 0)
  gradient := fun v => [-(2 * v.getD 0 0)]
  hessian := fun _ => [[-2]]

/-- One-dimensional stiff objective f(t) = 1e6 * t * t - t, whose Armijo
condition fails for every step above about 1e-6. -/
def steepObjective : ObjectiveFunction where
  value := fun v => 1000000 * (v.getD 0 0 * v.getD 0 0) - v.getD 0 0
  gradient := fun v => [2000000 * v.getD 0 0 - 1]
  hessian := fun _ => [[2000000]]

/-- One-dimensional linear objective f(t) = t. -/
def linObjective : ObjectiveFunction where
  value := fun v => v.getD 0 0
  gradient := fun _ => [1]
  hessian := fun _ => [[0]]

/-- Default value for list reads of iteration states. -/
def dummyState : IterationState := ⟨[], 0, [], 0, none, none, [], [], 0⟩

/-! ### Trajectory shape predicates (used to state C1, C2, C3) -/

/-- Both the direction and the step length of a state are present. -/
def isSomeBoth (s : IterationState) : Bool := s.direction.isSome && s.alpha.isSome

/-- Null pattern of gradient descent, BFGS, DFP, SR1 and BB trajectories:
every state but the last carries the chosen direction and step, the final
state carries neither. -/
def tailNullPattern (l : List IterationState) : Bool :=
  l.dropLast.all isSomeBoth &&
  (match l.getLast? with
   | some s => decide (s.direction = none) && decide (s.alpha = none)
   | none => false)

/-- Null pattern of trust-region trajectories: every state but the last
carries a direction, the final state does not, and every state (including
the final one) carries a non-null alpha (the trust-region radius). -/
def tailNullPatternTR (l : List IterationState) : Bool :=
  l.dropLast.all isSomeBoth &&
  l.all (fun s => s.alpha.isSome) &&
  (match l.getLast? with
   | some s => decide (s.direction = none)
   | none => false)

/-- Null pattern of Newton trajectories entered with pending previous
direction `pd` and step `pa`: every state but the last is patched, and the
final state repeats the previous state direction and alpha (for a whole
run started at iteration 0, `pd = pa = none`, so a single-state run has a
null direction and alpha and a longer run ends with a copy of the
next-to-last state values). -/
def newtonTailPattern (pd : Option Vec) (pa : Option ℚ) (l : List IterationState) : Bool :=
  l.dropLast.all isSomeBoth &&
  (match l.getLast? with
   | none => false
   | some s =>
     if l.length = 1 then decide (s.direction = pd) && decide (s.alpha = pa)
     else decide (s.direction = (l.getD (l.length - 2) dummyState).direction) &&
       decide (s.alpha = (l.getD (l.length - 2) dummyState).alpha))

/-- Step coherence of consecutive states (claim C2): the later point is the
earlier point plus the stored step length times the stored direction. -/
def stepRel (s t : IterationState) : Prop :=
  ∃ d a, s.direction = some d ∧ s.alpha = some a ∧ t.x = add s.x (scale d a)

/-- The final state is below the tolerance (claim C3). -/
def lastBelowTol (tol : ℚ) (l : List IterationState) : Bool :=
  match l.getLast? with
  | some s => decide (s.gradientNorm < tol)
  | none => false

/-- All states before the final one are at or above the tolerance
(claim C3: the loop returns immediately once below tolerance). -/
def preTolPattern (tol : ℚ) (l : List IterationState) : Bool :=
  l.dropLast.all (fun s => decide (tol ≤ s.gradientNorm))

/-! ### Per-state direction/step characterizations (used to state C8) -/

/-- The direction SR1 chooses at a stored state: the quasi-Newton direction
-H * g, replaced by the plain negative gradient when it fails the descent
test. -/
def sr1ChosenDir (s : IterationState) : Vec :=
  let d0 := scale (matVec s.hessianApprox s.gradient) (-1)
  if 0 ≤ dot d0 s.gradient then scale s.gradient (-1) else d0

/-- SR1 step rule, per stored state: quasi-Newton direction with fallback
to the plain negative gradient when it is not a descent direction, and the
step length from `backtracking` with default parameters (SR1 never calls
the Wolfe search). -/
def sr1StepSpec (func : ObjectiveFunction) (l : List IterationState) : Prop :=
  ∀ k, k + 1 < l.length →
    (l.getD k dummyState).direction =
      some (sr1ChosenDir (l.getD k dummyState)) ∧
    (l.getD k dummyState).alpha =
      some ((backtracking func.value func.gradient (l.getD k dummyState).x
        (sr1ChosenDir (l.getD k dummyState)) {}).alpha)

/-- BFGS/DFP step rule, per stored state: always the quasi-Newton direction
(no descent fallback), always the Wolfe search with default parameters. -/
def quasiNewtonWolfeStepSpec (func : ObjectiveFunction) (l : List IterationState) : Prop :=
  ∀ k, k + 1 < l.length →
    (l.getD k dummyState).direction =
      some (scale (matVec (l.getD k dummyState).hessianApprox
        (l.getD k dummyState).gradient) (-1)) ∧
    (l.getD k dummyState).alpha =
      some ((wolfeLineSearch func.value func.gradient (l.getD k dummyState).x
        (scale (matVec (l.getD k dummyState).hessianApprox
          (l.getD k dummyState).gradient) (-1)) {}).alpha)

/-- Termination behaviour of one optimizer run (claim C3): convergence flag
equal to the below-tolerance test of the final state, no state before the
final one below tolerance, at most maxIterations + 1 emitted states, and at
least one. -/
def terminationSpec (tol : ℚ) (maxIter : ℕ) (r : OptimizationResult) : Prop :=
  r.converged = lastBelowTol tol r.iterations ∧
  preTolPattern tol r.iterations = true ∧
  r.iterations.length ≤ maxIter + 1 ∧
  r.iterations ≠ []

/-! ### Matrix shape predicate and claim C7's update formula -/

/-- `m` is an `n × n` matrix: `n` rows, each of length `n` (rows accessed
with the JS-default empty row, matching `getE`). -/
def IsMatN (n : ℕ) (m : Mat) : Prop :=
  m.length = n ∧ ∀ i < n, (m.getD i []).length = n

/-- Claim C7's claimed BFGS update, transcribed from the specification
text: keep `H` when `rho = 1 / (y . s)` is non-finite (in exact
arithmetic: `y . s = 0`, the JS `Infinity` case) or nonpositive, otherwise
return `(I - rho s yT) * H * (I - rho y sT) + rho s sT`, with `*` the
library matrix product `mul` associated to the left as written. The
source's `bfgsUpdate` computes the same products inline, associated to the
right. -/
def bfgsUpdateClaim (H : Mat) (s y : Vec) : Mat :=
  let rho := 1 / dot y s
  if dot y s = 0 ∨ rho ≤ 0 then H
  else
    let n := s.length
    let leftTerm := matAdd (identity n) (matScale (outer s y) (-rho))
    let rightTerm := matAdd (identity n) (matScale (outer y s) (-rho))
    matAdd (mul (mul leftTerm H) rightTerm) (matScale (outer s s) rho)

/-! ## Theorems -/

/-- C4: both line searches return alpha = 0, 1 evaluation, success = false
as soon as the directional derivative at x is non-negative; since the
result is the same constant for every objective and gradient function with
that sign, no trial point is ever probed. -/
theorem claim_C4 (f : Vec → ℚ) (grad : Vec → Vec) (x d : Vec) (params : LineSearchParamsP)
    (h : 0 ≤ dot (grad x) d) :
    wolfeLineSearch f grad x d params = ⟨0, 1, false⟩ ∧
    backtracking f grad x d params = ⟨0, 1, false⟩ := by
  constructor
  · unfold wolfeLineSearch
    simp only []
    rw [if_pos h]
  · unfold backtracking
    simp only []
    rw [if_pos h]

/-- C4 witness: a concrete non-descent instance. -/
theorem claim_C4_witness :
    0 ≤ dot ((fun (_ : Vec) => ([1] : Vec)) [0]) [1] ∧
    wolfeLineSearch (fun _ => 0) (fun _ => [1]) [0] [1] {} = ⟨0, 1, false⟩ ∧
    backtracking (fun _ => 0) (fun _ => [1]) [0] [1] {} = ⟨0, 1, false⟩ := by
  have h : 0 ≤ dot ((fun (_ : Vec) => ([1] : Vec)) [0]) [1] := by norm_num [dot]
  exact ⟨h, (claim_C4 (fun _ => 0) (fun _ => [1]) [0] [1] {} h).1,
    (claim_C4 (fun _ => 0) (fun _ => [1]) [0] [1] {} h).2⟩

/-- The backtracking trial loop scans the step lengths alpha * 0.5 ^ i in
order, returns the first Armijo success, and after exhausting `fuel` trials
returns the once-more-halved step alpha * 0.5 ^ fuel. -/
theorem btGo_eq_scan (f : Vec → ℚ) (x d : Vec) (fx dd c1 : ℚ) :
    ∀ fuel alpha evals,
      btGo f x d fx dd c1 fuel alpha evals =
        match (List.range fuel).find?
          (fun i => decide (f (add x (scale d (alpha * (1 / 2) ^ i))) ≤
            fx + c1 * (alpha * (1 / 2) ^ i) * dd)) with
        | some i => ⟨alpha * (1 / 2) ^ i, evals + i + 1, true⟩
        | none => ⟨alpha * (1 / 2) ^ fuel, evals + fuel, false⟩ := by
  intro fuel
  induction fuel with
  | zero =>
    intro alpha evals
    simp [btGo]
  | succ n ih =>
    intro alpha evals
    rw [btGo]
    have hsh : ∀ i : ℕ, alpha * (1 / 2) ^ (i + 1) = alpha * (1 / 2) * (1 / 2) ^ i := by
      intro i; ring
    by_cases h : f (add x (scale d alpha)) ≤ fx + c1 * alpha * dd
    · rw [if_pos h]
      have h0 : (decide (f (add x (scale d (alpha * (1 / 2) ^ (0 : ℕ)))) ≤
          fx + c1 * (alpha * (1 / 2) ^ (0 : ℕ)) * dd)) = true := by
        simpa using h
      rw [List.range_succ_eq_map, List.find?_cons, h0]
      simp
    · rw [if_neg h]
      rw [ih (alpha * (1 / 2)) (evals + 1)]
      rw [List.range_succ_eq_map, List.find?_cons]
      have h0 : (decide (f (add x (scale d (alpha * (1 / 2) ^ (0 : ℕ)))) ≤
          fx + c1 * (alpha * (1 / 2) ^ (0 : ℕ)) * dd)) = false := by
        simpa using h
      rw [h0, List.find?_map]
      have hfun : ((fun i => decide (f (add x (scale d (alpha * (1 / 2) ^ i))) ≤
            fx + c1 * (alpha * (1 / 2) ^ i) * dd)) ∘ Nat.succ) =
          (fun i => decide (f (add x (scale d (alpha * (1 / 2) * (1 / 2) ^ i))) ≤
            fx + c1 * (alpha * (1 / 2) * (1 / 2) ^ i) * dd)) := by
        funext i
        simp only [Function.comp]
        rw [decide_eq_decide]
        rw [Nat.succ_eq_add_one, hsh i]
      rw [hfun]
      cases hfind : (List.range n).find?
          (fun i => decide (f (add x (scale d (alpha * (1 / 2) * (1 / 2) ^ i))) ≤
            fx + c1 * (alpha * (1 / 2) * (1 / 2) ^ i) * dd)) with
      | none =>
        show (⟨alpha * (1 / 2) * (1 / 2) ^ n, evals + 1 + n, false⟩ : LineSearchResult) =
          ⟨alpha * (1 / 2) ^ (n + 1), evals + (n + 1), false⟩
        have h4 : alpha * (1 / 2) * (1 / 2) ^ n = alpha * (1 / 2) ^ (n + 1) := by ring
        rw [h4]
        congr 1
        omega
      | some i =>
        show (⟨alpha * (1 / 2) * (1 / 2) ^ i, evals + 1 + i + 1, true⟩ : LineSearchResult) =
          ⟨alpha * (1 / 2) ^ (i + 1), evals + (i + 1) + 1, true⟩
        have h4 : alpha * (1 / 2) * (1 / 2) ^ i = alpha * (1 / 2) ^ (i + 1) := by ring
        rw [h4]
        congr 1
        omega

/-- C5 (amended): given a descent direction, `backtracking` tries exactly
initialAlpha * 0.5 ^ i for i = 0, 1, ... and returns the first trial
satisfying Armijo with success = true (having spent i + 2 evaluations);
when the budget B is exhausted it returns initialAlpha * 0.5 ^ B with
success = false, i.e. 0.5 times the last attempted step length, not the
last attempted step length itself. -/
theorem claim_C5_amended (f : Vec → ℚ) (grad : Vec → Vec) (x d : Vec)
    (params : LineSearchParamsP) (h : dot (grad x) d < 0) :
    backtracking f grad x d params =
      match (List.range (params.maxIterations.getD defaultLsMaxIterations)).find?
        (fun i => decide (f (add x (scale d
            ((params.initialAlpha.getD defaultInitialAlpha) * (1 / 2) ^ i))) ≤
          f x + (params.c1.getD defaultC1) *
            ((params.initialAlpha.getD defaultInitialAlpha) * (1 / 2) ^ i) *
            dot (grad x) d)) with
      | some i => ⟨(params.initialAlpha.getD defaultInitialAlpha) * (1 / 2) ^ i, i + 2, true⟩
      | none => ⟨(params.initialAlpha.getD defaultInitialAlpha) *
            (1 / 2) ^ (params.maxIterations.getD defaultLsMaxIterations),
          (params.maxIterations.getD defaultLsMaxIterations) + 1, false⟩ := by
  unfold backtracking
  rw [if_neg (not_le.mpr h)]
  rw [btGo_eq_scan]
  cases hfind : (List.range (params.maxIterations.getD defaultLsMaxIterations)).find?
      (fun i => decide (f (add x (scale d
          ((params.initialAlpha.getD defaultInitialAlpha) * (1 / 2) ^ i))) ≤
        f x + (params.c1.getD defaultC1) *
          ((params.initialAlpha.getD defaultInitialAlpha) * (1 / 2) ^ i) *
          dot (grad x) d)) with
  | none => simp only [hfind]; congr 1; omega
  | some i => simp only [hfind]; congr 1; omega

/-- C5 witness: on the stiff objective with budget 1 and initial step 1e-7
the very first trial satisfies Armijo and is returned with 2 evaluations. -/
theorem claim_C5_amended_witness :
    dot (steepObjective.gradient [0]) [1] < 0 ∧
    backtracking steepObjective.value steepObjective.gradient [0] [1]
      { maxIterations := some 1, initialAlpha := some (1 / 10000000) } =
      ⟨1 / 10000000, 2, true⟩ := by
  have h : dot (steepObjective.gradient [0]) [1] < 0 := by norm_num [steepObjective, dot]
  refine ⟨h, ?_⟩
  rw [claim_C5_amended steepObjective.value steepObjective.gradient [0] [1]
    { maxIterations := some 1, initialAlpha := some (1 / 10000000) } h]
  norm_num [steepObjective, dot, add, scale, defaultC1, List.range_succ]

/-- C5 counterexample: on the stiff objective with budget 2 the Armijo
condition never holds; the trials are 1 and 0.5, yet the returned step is
0.25, not the last attempted 0.5 claimed by the specification. -/
theorem claim_C5_counterexample :
    backtracking steepObjective.value steepObjective.gradient [0] [1]
      { maxIterations := some 2 } = ⟨1 / 4, 3, false⟩ ∧
    (1 / 4 : ℚ) ≠ 1 * (1 / 2) ^ (2 - 1 : ℕ) := by
  constructor
  · norm_num [backtracking, btGo, steepObjective, dot, add, scale, defaultC1,
      defaultInitialAlpha]
  · norm_num

/-- Helper: consing preserves the optional last element of a nonempty list. -/
theorem getLastCons {α : Type _} (a : α) {l : List α} (h : l ≠ []) :
    (a :: l).getLast? = l.getLast? := by
  cases l with
  | nil => exact absurd rfl h
  | cons b t => exact List.getLast?_cons_cons

/-- Helper: `lastBelowTol` ignores a consed state when the tail is nonempty. -/
theorem lastBelowTol_cons (tol : ℚ) (s : IterationState) {l : List IterationState}
    (h : l ≠ []) : lastBelowTol tol (s :: l) = lastBelowTol tol l := by
  simp only [lastBelowTol, getLastCons s h]

/-- Helper: `preTolPattern` absorbs a consed state at or above tolerance. -/
theorem preTolPattern_cons (tol : ℚ) {s : IterationState} {l : List IterationState}
    (h : l ≠ []) (hs : tol ≤ s.gradientNorm) :
    preTolPattern tol (s :: l) = preTolPattern tol l := by
  simp [preTolPattern, List.dropLast_cons_of_ne_nil h, hs]

/-- Helper: `tailNullPattern` absorbs a consed patched state. -/
theorem tailNullPattern_cons {s : IterationState} {l : List IterationState}
    (h : l ≠ []) (hs : isSomeBoth s = true) :
    tailNullPattern (s :: l) = tailNullPattern l := by
  simp [tailNullPattern, List.dropLast_cons_of_ne_nil h, getLastCons s h, hs]

/-- Helper: `tailNullPatternTR` absorbs a consed patched state. -/
theorem tailNullPatternTR_cons {s : IterationState} {l : List IterationState}
    (h : l ≠ []) (hs : isSomeBoth s = true) :
    tailNullPatternTR (s :: l) = tailNullPatternTR l := by
  have hs2 : s.alpha.isSome = true := (Bool.and_elim_right hs)
  simp [tailNullPatternTR, List.dropLast_cons_of_ne_nil h, getLastCons s h, hs, hs2]

/-- Helper: `newtonTailPattern` of a consed patched state hands the pending
direction and alpha of the new state down to the tail. -/
theorem newtonTailPattern_cons {s : IterationState} {l : List IterationState}
    (pd : Option Vec) (pa : Option ℚ) (h : l ≠ []) :
    newtonTailPattern pd pa (s :: l) =
      (isSomeBoth s && newtonTailPattern s.direction s.alpha l) := by
  cases l with
  | nil => exact absurd rfl h
  | cons a l2 =>
    cases l2 with
    | nil =>
      simp [newtonTailPattern, Bool.and_assoc]
    | cons b l3 =>
      simp only [newtonTailPattern, List.dropLast_cons_of_ne_nil h, List.all_cons,
        getLastCons s h, List.length_cons]
      have e1 : l3.length + 1 + 1 + 1 - 2 = l3.length + 1 := by omega
      have e2 : l3.length + 1 + 1 - 2 = l3.length := by omega
      have hx3 : (l3.length + 1 + 1 + 1 = 1) = False := eq_false (by omega)
      have hx4 : (l3.length + 1 + 1 = 1) = False := eq_false (by omega)
      simp only [e1, e2, List.getD_cons_succ, hx3, hx4, if_false]
      simp [Bool.and_assoc]

/-- Loop invariant of the gradient descent body: the emitted trajectory is
nonempty, bounded by the fuel, starts at the current point, has converged
exactly when its final gradient norm is below tolerance, keeps all states
before the final one at or above tolerance, leaves direction and alpha null
exactly in the final state, and satisfies the step recurrence. -/
theorem gdGo_props (msqrt : ℚ → ℚ) (func : ObjectiveFunction) (tol : ℚ) (maxIter : ℕ) :
    ∀ fuel iter x g fe ge, fuel + iter = maxIter + 1 → iter ≤ maxIter →
      (gdGo msqrt func tol maxIter fuel iter x g fe ge).iterations ≠ [] ∧
      (gdGo msqrt func tol maxIter fuel iter x g fe ge).iterations.length ≤ fuel ∧
      ((gdGo msqrt func tol maxIter fuel iter x g fe ge).iterations.headD dummyState).x = x ∧
      (gdGo msqrt func tol maxIter fuel iter x g fe ge).converged =
        lastBelowTol tol (gdGo msqrt func tol maxIter fuel iter x g fe ge).iterations ∧
      preTolPattern tol (gdGo msqrt func tol maxIter fuel iter x g fe ge).iterations = true ∧
      tailNullPattern (gdGo msqrt func tol maxIter fuel iter x g fe ge).iterations = true ∧
      List.Chain' stepRel (gdGo msqrt func tol maxIter fuel iter x g fe ge).iterations := by
  intro fuel
  induction fuel with
  | zero => intro iter x g fe ge hfi hle; omega
  | succ n ih =>
    intro iter x g fe ge hfi hle
    simp only [gdGo]
    by_cases hconv : norm msqrt g < tol
    · rw [if_pos hconv]
      refine ⟨by simp, by simp, by simp [dummyState], ?_, ?_, ?_, ?_⟩
      · simp [lastBelowTol, hconv]
      · simp [preTolPattern]
      · simp [tailNullPattern]
      · simp [stepRel]
    · rw [if_neg hconv]
      by_cases hmax : iter = maxIter
      · rw [if_pos hmax]
        refine ⟨by simp, by simp, by simp [dummyState], ?_, ?_, ?_, ?_⟩
        · simp [lastBelowTol, hconv]
        · simp [preTolPattern]
        · simp [tailNullPattern]
        · simp [stepRel]
      · rw [if_neg hmax]
        have hfi2 : n + (iter + 1) = maxIter + 1 := by omega
        have hle2 : iter + 1 ≤ maxIter := by omega
        obtain ⟨ih1, ih2, ih3, ih4, ih5, ih6, ih7⟩ :=
          ih (iter + 1)
            (add x (scale (scale g (-1))
              (backtracking func.value func.gradient x (scale g (-1))
                { initialAlpha := some 1 }).alpha))
            (func.gradient (add x (scale (scale g (-1))
              (backtracking func.value func.gradient x (scale g (-1))
                { initialAlpha := some 1 }).alpha)))
            (fe + 1 + (backtracking func.value func.gradient x (scale g (-1))
              { initialAlpha := some 1 }).evaluations)
            (ge + 1) hfi2 hle2
        refine ⟨by simp, ?_, by simp [dummyState], ?_, ?_, ?_, ?_⟩
        · exact Nat.succ_le_succ ih2
        · rw [lastBelowTol_cons tol _ ih1]
          exact ih4
        · rw [preTolPattern_cons tol ih1 (by simpa using not_lt.mp hconv)]
          exact ih5
        · rw [tailNullPattern_cons ih1 (by simp [isSomeBoth])]
          exact ih6
        · rw [List.chain'_cons']
          refine ⟨?_, ih7⟩
          intro y hy
          obtain ⟨hd, tl, hcons⟩ := List.exists_cons_of_ne_nil ih1
          rw [hcons] at hy
          simp only [List.head?_cons, Option.mem_def, Option.some.injEq] at hy
          subst hy
          refine ⟨scale g (-1),
            (backtracking func.value func.gradient x (scale g (-1))
              { initialAlpha := some 1 }).alpha, rfl, rfl, ?_⟩
          have h3 := ih3
          rw [hcons] at h3
          simpa [dummyState] using h3

/-- Loop invariant of the BFGS body; in addition to the shape facts shared
with gradient descent, every state but the last stores the quasi-Newton
direction -H * g without any descent fallback together with the Wolfe step
length (claim C8). -/
theorem bfgsGo_props (msqrt : ℚ → ℚ) (func : ObjectiveFunction) (tol : ℚ) (maxIter : ℕ) :
    ∀ fuel iter x g H fe ge, fuel + iter = maxIter + 1 → iter ≤ maxIter →
      (bfgsGo msqrt func tol maxIter fuel iter x g H fe ge).iterations ≠ [] ∧
      (bfgsGo msqrt func tol maxIter fuel iter x g H fe ge).iterations.length ≤ fuel ∧
      ((bfgsGo msqrt func tol maxIter fuel iter x g H fe ge).iterations.headD dummyState).x = x ∧
      (bfgsGo msqrt func tol maxIter fuel iter x g H fe ge).converged =
        lastBelowTol tol (bfgsGo msqrt func tol maxIter fuel iter x g H fe ge).iterations ∧
      preTolPattern tol (bfgsGo msqrt func tol maxIter fuel iter x g H fe ge).iterations = true ∧
      tailNullPattern (bfgsGo msqrt func tol maxIter fuel iter x g H fe ge).iterations = true ∧
      List.Chain' stepRel (bfgsGo msqrt func tol maxIter fuel iter x g H fe ge).iterations ∧
      quasiNewtonWolfeStepSpec func
        (bfgsGo msqrt func tol maxIter fuel iter x g H fe ge).iterations := by
  intro fuel
  induction fuel with
  | zero => intro iter x g H fe ge hfi hle; omega
  | succ n ih =>
    intro iter x g H fe ge hfi hle
    simp only [bfgsGo]
    by_cases hconv : norm msqrt g < tol
    · rw [if_pos hconv]
      refine ⟨by simp, by simp, by simp [dummyState], ?_, ?_, ?_, ?_, ?_⟩
      · simp [lastBelowTol, hconv]
      · simp [preTolPattern]
      · simp [tailNullPattern]
      · simp [stepRel]
      · intro k hk
        simp at hk
    · rw [if_neg hconv]
      by_cases hmax : iter = maxIter
      · rw [if_pos hmax]
        refine ⟨by simp, by simp, by simp [dummyState], ?_, ?_, ?_, ?_, ?_⟩
        · simp [lastBelowTol, hconv]
        · simp [preTolPattern]
        · simp [tailNullPattern]
        · simp [stepRel]
        · intro k hk
          simp at hk
      · rw [if_neg hmax]
        have hfi2 : n + (iter + 1) = maxIter + 1 := by omega
        have hle2 : iter + 1 ≤ maxIter := by omega
        obtain ⟨ih1, ih2, ih3, ih4, ih5, ih6, ih7, ih8⟩ := ih (iter + 1) _ _ _ _ _ hfi2 hle2
        refine ⟨by simp, ?_, by simp [dummyState], ?_, ?_, ?_, ?_, ?_⟩
        · exact Nat.succ_le_succ ih2
        · rw [lastBelowTol_cons tol _ ih1]
          exact ih4
        · rw [preTolPattern_cons tol ih1 (by simpa using not_lt.mp hconv)]
          exact ih5
        · rw [tailNullPattern_cons ih1 (by simp [isSomeBoth])]
          exact ih6
        · rw [List.chain'_cons']
          refine ⟨?_, ih7⟩
          intro y hy
          obtain ⟨hd, tl, hcons⟩ := List.exists_cons_of_ne_nil ih1
          rw [hcons] at hy
          simp only [List.head?_cons, Option.mem_def, Option.some.injEq] at hy
          subst hy
          refine ⟨scale (matVec H g) (-1),
            (wolfeLineSearch func.value func.gradient x (scale (matVec H g) (-1)) {}).alpha,
            rfl, rfl, ?_⟩
          have h3 := ih3
          rw [hcons] at h3
          simpa [dummyState] using h3
        · intro k hk
          cases k with
          | zero => exact ⟨rfl, rfl⟩
          | succ k2 =>
            have h8 := ih8 k2 (by simpa using hk)
            simpa [List.getD_cons_succ] using h8

/-- Loop invariant of the DFP body; identical shape facts to BFGS,
including the absence of a descent fallback and the use of the Wolfe
search (claim C8). -/
theorem dfpGo_props (msqrt : ℚ → ℚ) (func : ObjectiveFunction) (tol : ℚ) (maxIter : ℕ) :
    ∀ fuel iter x g H fe ge, fuel + iter = maxIter + 1 → iter ≤ maxIter →
      (dfpGo msqrt func tol maxIter fuel iter x g H fe ge).iterations ≠ [] ∧
      (dfpGo msqrt func tol maxIter fuel iter x g H fe ge).iterations.length ≤ fuel ∧
      ((dfpGo msqrt func tol maxIter fuel iter x g H fe ge).iterations.headD dummyState).x = x ∧
      (dfpGo msqrt func tol maxIter fuel iter x g H fe ge).converged =
        lastBelowTol tol (dfpGo msqrt func tol maxIter fuel iter x g H fe ge).iterations ∧
      preTolPattern tol (dfpGo msqrt func tol maxIter fuel iter x g H fe ge).iterations = true ∧
      tailNullPattern (dfpGo msqrt func tol maxIter fuel iter x g H fe ge).iterations = true ∧
      List.Chain' stepRel (dfpGo msqrt func tol maxIter fuel iter x g H fe ge).iterations ∧
      quasiNewtonWolfeStepSpec func
        (dfpGo msqrt func tol maxIter fuel iter x g H fe ge).iterations := by
  intro fuel
  induction fuel with
  | zero => intro iter x g H fe ge hfi hle; omega
  | succ n ih =>
    intro iter x g H fe ge hfi hle
    simp only [dfpGo]
    by_cases hconv : norm msqrt g < tol
    · rw [if_pos hconv]
      refine ⟨by simp, by simp, by simp [dummyState], ?_, ?_, ?_, ?_, ?_⟩
      · simp [lastBelowTol, hconv]
      · simp [preTolPattern]
      · simp [tailNullPattern]
      · simp [stepRel]
      · intro k hk
        simp at hk
    · rw [if_neg hconv]
      by_cases hmax : iter = maxIter
      · rw [if_pos hmax]
        refine ⟨by simp, by simp, by simp [dummyState], ?_, ?_, ?_, ?_, ?_⟩
        · simp [lastBelowTol, hconv]
        · simp [preTolPattern]
        · simp [tailNullPattern]
        · simp [stepRel]
        · intro k hk
          simp at hk
      · rw [if_neg hmax]
        have hfi2 : n + (iter + 1) = maxIter + 1 := by omega
        have hle2 : iter + 1 ≤ maxIter := by omega
        obtain ⟨ih1, ih2, ih3, ih4, ih5, ih6, ih7, ih8⟩ := ih (iter + 1) _ _ _ _ _ hfi2 hle2
        refine ⟨by simp, ?_, by simp [dummyState], ?_, ?_, ?_, ?_, ?_⟩
        · exact Nat.succ_le_succ ih2
        · rw [lastBelowTol_cons tol _ ih1]
          exact ih4
        · rw [preTolPattern_cons tol ih1 (by simpa using not_lt.mp hconv)]
          exact ih5
        · rw [tailNullPattern_cons ih1 (by simp [isSomeBoth])]
          exact ih6
        · rw [List.chain'_cons']
          refine ⟨?_, ih7⟩
          intro y hy
          obtain ⟨hd, tl, hcons⟩ := List.exists_cons_of_ne_nil ih1
          rw [hcons] at hy
          simp only [List.head?_cons, Option.mem_def, Option.some.injEq] at hy
          subst hy
          refine ⟨scale (matVec H g) (-1),
            (wolfeLineSearch func.value func.gradient x (scale (matVec H g) (-1)) {}).alpha,
            rfl, rfl, ?_⟩
          have h3 := ih3
          rw [hcons] at h3
          simpa [dummyState] using h3
        · intro k hk
          cases k with
          | zero => exact ⟨rfl, rfl⟩
          | succ k2 =>
            have h8 := ih8 k2 (by simpa using hk)
            simpa [List.getD_cons_succ] using h8

/-- Loop invariant of the SR1 body; every state but the last stores the
quasi-Newton direction with its descent fallback to the plain negative
gradient, and the step length always comes from `backtracking`
(claim C8). -/
theorem sr1Go_props (msqrt : ℚ → ℚ) (func : ObjectiveFunction) (tol : ℚ) (maxIter : ℕ) :
    ∀ fuel iter x g H fe ge, fuel + iter = maxIter + 1 → iter ≤ maxIter →
      (sr1Go msqrt func tol maxIter fuel iter x g H fe ge).iterations ≠ [] ∧
      (sr1Go msqrt func tol maxIter fuel iter x g H fe ge).iterations.length ≤ fuel ∧
      ((sr1Go msqrt func tol maxIter fuel iter x g H fe ge).iterations.headD dummyState).x = x ∧
      (sr1Go msqrt func tol maxIter fuel iter x g H fe ge).converged =
        lastBelowTol tol (sr1Go msqrt func tol maxIter fuel iter x g H fe ge).iterations ∧
      preTolPattern tol (sr1Go msqrt func tol maxIter fuel iter x g H fe ge).iterations = true ∧
      tailNullPattern (sr1Go msqrt func tol maxIter fuel iter x g H fe ge).iterations = true ∧
      List.Chain' stepRel (sr1Go msqrt func tol maxIter fuel iter x g H fe ge).iterations ∧
      sr1StepSpec func (sr1Go msqrt func tol maxIter fuel iter x g H fe ge).iterations := by
  intro fuel
  induction fuel with
  | zero => intro iter x g H fe ge hfi hle; omega
  | succ n ih =>
    intro iter x g H fe ge hfi hle
    simp only [sr1Go]
    by_cases hconv : norm msqrt g < tol
    · rw [if_pos hconv]
      refine ⟨by simp, by simp, by simp [dummyState], ?_, ?_, ?_, ?_, ?_⟩
      · simp [lastBelowTol, hconv]
      · simp [preTolPattern]
      · simp [tailNullPattern]
      · simp [stepRel]
      · intro k hk
        simp at hk
    · rw [if_neg hconv]
      by_cases hmax : iter = maxIter
      · rw [if_pos hmax]
        refine ⟨by simp, by simp, by simp [dummyState], ?_, ?_, ?_, ?_, ?_⟩
        · simp [lastBelowTol, hconv]
        · simp [preTolPattern]
        · simp [tailNullPattern]
        · simp [stepRel]
        · intro k hk
          simp at hk
      · rw [if_neg hmax]
        have hfi2 : n + (iter + 1) = maxIter + 1 := by omega
        have hle2 : iter + 1 ≤ maxIter := by omega
        obtain ⟨ih1, ih2, ih3, ih4, ih5, ih6, ih7, ih8⟩ := ih (iter + 1) _ _ _ _ _ hfi2 hle2
        refine ⟨by simp, ?_, by simp [dummyState], ?_, ?_, ?_, ?_, ?_⟩
        · exact Nat.succ_le_succ ih2
        · rw [lastBelowTol_cons tol _ ih1]
          exact ih4
        · rw [preTolPattern_cons tol ih1 (by simpa using not_lt.mp hconv)]
          exact ih5
        · rw [tailNullPattern_cons ih1 (by simp [isSomeBoth])]
          exact ih6
        · rw [List.chain'_cons']
          refine ⟨?_, ih7⟩
          intro y hy
          obtain ⟨hd, tl, hcons⟩ := List.exists_cons_of_ne_nil ih1
          rw [hcons] at hy
          simp only [List.head?_cons, Option.mem_def, Option.some.injEq] at hy
          subst hy
          refine ⟨(if 0 ≤ dot (scale (matVec H g) (-1)) g then scale g (-1)
              else scale (matVec H g) (-1)),
            (backtracking func.value func.gradient x
              (if 0 ≤ dot (scale (matVec H g) (-1)) g then scale g (-1)
                else scale (matVec H g) (-1)) {}).alpha,
            rfl, rfl, ?_⟩
          have h3 := ih3
          rw [hcons] at h3
          simpa [dummyState] using h3
        · intro k hk
          cases k with
          | zero => exact ⟨rfl, rfl⟩
          | succ k2 =>
            have h8 := ih8 k2 (by simpa using hk)
            simpa [List.getD_cons_succ] using h8

/-- Loop invariant of the Barzilai-Borwein body: same shared shape facts;
the stored alpha of every stepped state is the fixed step length 1. -/
theorem bbGo_props (msqrt : ℚ → ℚ) (func : ObjectiveFunction) (tol : ℚ) (maxIter : ℕ) :
    ∀ fuel iter x g aBB fe ge, fuel + iter = maxIter + 1 → iter ≤ maxIter →
      (bbGo msqrt func tol maxIter fuel iter x g aBB fe ge).iterations ≠ [] ∧
      (bbGo msqrt func tol maxIter fuel iter x g aBB fe ge).iterations.length ≤ fuel ∧
      ((bbGo msqrt func tol maxIter fuel iter x g aBB fe ge).iterations.headD dummyState).x = x ∧
      (bbGo msqrt func tol maxIter fuel iter x g aBB fe ge).converged =
        lastBelowTol tol (bbGo msqrt func tol maxIter fuel iter x g aBB fe ge).iterations ∧
      preTolPattern tol (bbGo msqrt func tol maxIter fuel iter x g aBB fe ge).iterations = true ∧
      tailNullPattern (bbGo msqrt func tol maxIter fuel iter x g aBB fe ge).iterations = true ∧
      List.Chain' stepRel (bbGo msqrt func tol maxIter fuel iter x g aBB fe ge).iterations := by
  intro fuel
  induction fuel with
  | zero => intro iter x g aBB fe ge hfi hle; omega
  | succ n ih =>
    intro iter x g aBB fe ge hfi hle
    simp only [bbGo]
    by_cases hconv : norm msqrt g < tol
    · rw [if_pos hconv]
      refine ⟨by simp, by simp, by simp [dummyState], ?_, ?_, ?_, ?_⟩
      · simp [lastBelowTol, hconv]
      · simp [preTolPattern]
      · simp [tailNullPattern]
      · simp [stepRel]
    · rw [if_neg hconv]
      by_cases hmax : iter = maxIter
      · rw [if_pos hmax]
        refine ⟨by simp, by simp, by simp [dummyState], ?_, ?_, ?_, ?_⟩
        · simp [lastBelowTol, hconv]
        · simp [preTolPattern]
        · simp [tailNullPattern]
        · simp [stepRel]
      · rw [if_neg hmax]
        have hfi2 : n + (iter + 1) = maxIter + 1 := by omega
        have hle2 : iter + 1 ≤ maxIter := by omega
        obtain ⟨ih1, ih2, ih3, ih4, ih5, ih6, ih7⟩ := ih (iter + 1) _ _ _ _ _ hfi2 hle2
        refine ⟨by simp, ?_, by simp [dummyState], ?_, ?_, ?_, ?_⟩
        · exact Nat.succ_le_succ ih2
        · rw [lastBelowTol_cons tol _ ih1]
          exact ih4
        · rw [preTolPattern_cons tol ih1 (by simpa using not_lt.mp hconv)]
          exact ih5
        · rw [tailNullPattern_cons ih1 (by simp [isSomeBoth])]
          exact ih6
        · rw [List.chain'_cons']
          refine ⟨?_, ih7⟩
          intro y hy
          obtain ⟨hd, tl, hcons⟩ := List.exists_cons_of_ne_nil ih1
          rw [hcons] at hy
          simp only [List.head?_cons, Option.mem_def, Option.some.injEq] at hy
          subst hy
          refine ⟨scale g (-aBB), 1, rfl, rfl, ?_⟩
          have h3 := ih3
          rw [hcons] at h3
          simpa [dummyState] using h3

/-- Loop invariant of the Newton body: shared shape facts, the final state
repeats the pending previous direction and alpha, and the function
evaluation counter is one per emitted state plus a flat two per step taken
(claim C9), independent of the line search and not counting the final
value computed after budget exhaustion. -/
theorem newtonGo_props (msqrt : ℚ → ℚ) (func : ObjectiveFunction) (tol : ℚ) (maxIter : ℕ) :
    ∀ fuel iter x pd pa fe ge, fuel + iter = maxIter + 1 → iter ≤ maxIter →
      (newtonGo msqrt func tol maxIter fuel iter x pd pa fe ge).iterations ≠ [] ∧
      (newtonGo msqrt func tol maxIter fuel iter x pd pa fe ge).iterations.length ≤ fuel ∧
      ((newtonGo msqrt func tol maxIter fuel iter x pd pa fe ge).iterations.headD
        dummyState).x = x ∧
      (newtonGo msqrt func tol maxIter fuel iter x pd pa fe ge).converged =
        lastBelowTol tol (newtonGo msqrt func tol maxIter fuel iter x pd pa fe ge).iterations ∧
      preTolPattern tol
        (newtonGo msqrt func tol maxIter fuel iter x pd pa fe ge).iterations = true ∧
      newtonTailPattern (if iter = 0 then none else pd) (if iter = 0 then none else pa)
        (newtonGo msqrt func tol maxIter fuel iter x pd pa fe ge).iterations = true ∧
      List.Chain' stepRel
        (newtonGo msqrt func tol maxIter fuel iter x pd pa fe ge).iterations ∧
      (newtonGo msqrt func tol maxIter fuel iter x pd pa fe ge).functionEvaluations + 2 =
        fe + 3 * (newtonGo msqrt func tol maxIter fuel iter x pd pa fe ge).iterations.length := by
  intro fuel
  induction fuel with
  | zero => intro iter x pd pa fe ge hfi hle; omega
  | succ n ih =>
    intro iter x pd pa fe ge hfi hle
    simp only [newtonGo]
    by_cases hconv : norm msqrt (func.gradient x) < tol
    · rw [if_pos hconv]
      refine ⟨by simp, by simp, by simp [dummyState], ?_, ?_, ?_, ?_, ?_⟩
      · simp [lastBelowTol, hconv]
      · simp [preTolPattern]
      · simp [newtonTailPattern]
      · simp [stepRel]
      · simp
    · rw [if_neg hconv]
      by_cases hmax : iter = maxIter
      · rw [if_pos hmax]
        refine ⟨by simp, by simp, by simp [dummyState], ?_, ?_, ?_, ?_, ?_⟩
        · simp [lastBelowTol, hconv]
        · simp [preTolPattern]
        · simp [newtonTailPattern]
        · simp [stepRel]
        · simp
      · rw [if_neg hmax]
        have hfi2 : n + (iter + 1) = maxIter + 1 := by omega
        have hle2 : iter + 1 ≤ maxIter := by omega
        obtain ⟨ih1, ih2, ih3, ih4, ih5, ih6, ih7, ih8⟩ := ih (iter + 1) _ _ _ _ _ hfi2 hle2
        refine ⟨by simp, ?_, by simp [dummyState], ?_, ?_, ?_, ?_, ?_⟩
        · exact Nat.succ_le_succ ih2
        · rw [lastBelowTol_cons tol _ ih1]
          exact ih4
        · rw [preTolPattern_cons tol ih1 (by simpa using not_lt.mp hconv)]
          exact ih5
        · rw [newtonTailPattern_cons _ _ ih1]
          have ih6b := ih6
          simp only [Nat.succ_ne_zero, if_neg (Nat.succ_ne_zero iter)] at ih6b
          simpa [isSomeBoth] using ih6b
        · rw [List.chain'_cons']
          refine ⟨?_, ih7⟩
          intro y hy
          obtain ⟨hd, tl, hcons⟩ := List.exists_cons_of_ne_nil ih1
          rw [hcons] at hy
          simp only [List.head?_cons, Option.mem_def, Option.some.injEq] at hy
          subst hy
          refine ⟨((inverse (func.hessian x)).getD (identity x.length)).map
              (fun row => -(dot row (func.gradient x))),
            (backtracking func.value func.gradient x
              (((inverse (func.hessian x)).getD (identity x.length)).map
                (fun row => -(dot row (func.gradient x))))
              { initialAlpha := some 1 }).alpha,
            rfl, rfl, ?_⟩
          have h3 := ih3
          rw [hcons] at h3
          simpa [dummyState] using h3
        · have h8 := ih8
          simp only [List.length_cons]
          omega

/-- Loop invariant of the trust region body: shared shape facts; every
state stores the trust region radius in alpha (never null), every state
but the last stores the accepted or rejected dogleg direction, and the
final state has a null direction. -/
theorem trGo_props (msqrt : ℚ → ℚ) (func : ObjectiveFunction) (tol : ℚ) (maxIter : ℕ) :
    ∀ fuel iter x delta fe ge, fuel + iter = maxIter + 1 → iter ≤ maxIter →
      (trGo msqrt func tol maxIter fuel iter x delta fe ge).iterations ≠ [] ∧
      (trGo msqrt func tol maxIter fuel iter x delta fe ge).iterations.length ≤ fuel ∧
      (trGo msqrt func tol maxIter fuel iter x delta fe ge).converged =
        lastBelowTol tol (trGo msqrt func tol maxIter fuel iter x delta fe ge).iterations ∧
      preTolPattern tol
        (trGo msqrt func tol maxIter fuel iter x delta fe ge).iterations = true ∧
      tailNullPatternTR (trGo msqrt func tol maxIter fuel iter x delta fe ge).iterations = true := by
  intro fuel
  induction fuel with
  | zero => intro iter x delta fe ge hfi hle; omega
  | succ n ih =>
    intro iter x delta fe ge hfi hle
    simp only [trGo]
    by_cases hconv : norm msqrt (func.gradient x) < tol
    · rw [if_pos hconv]
      refine ⟨by simp, by simp, ?_, ?_, ?_⟩
      · simp [lastBelowTol, hconv]
      · simp [preTolPattern]
      · simp [tailNullPatternTR]
    · rw [if_neg hconv]
      by_cases hmax : iter = maxIter
      · rw [if_pos hmax]
        refine ⟨by simp, by simp, ?_, ?_, ?_⟩
        · simp [lastBelowTol, hconv]
        · simp [preTolPattern]
        · simp [tailNullPatternTR]
      · rw [if_neg hmax]
        have hfi2 : n + (iter + 1) = maxIter + 1 := by omega
        have hle2 : iter + 1 ≤ maxIter := by omega
        obtain ⟨ih1, ih2, ih3, ih4, ih5⟩ := ih (iter + 1) _ _ _ _ hfi2 hle2
        refine ⟨by simp, ?_, ?_, ?_, ?_⟩
        · exact Nat.succ_le_succ ih2
        · rw [lastBelowTol_cons tol _ ih1]
          exact ih3
        · rw [preTolPattern_cons tol ih1 (by simpa using not_lt.mp hconv)]
          exact ih4
        · rw [tailNullPatternTR_cons ih1 (by simp [isSomeBoth])]
          exact ih5

/-- Evaluation of the concrete square root model at 0. -/
theorem ratSqrt_zero : ratSqrt 0 = 0 := by
  norm_num [ratSqrt]

/-- Evaluation of the concrete square root model at 1. -/
theorem ratSqrt_one : ratSqrt 1 = 1 := by
  rw [ratSqrt]
  rw [if_neg (by norm_num)]
  rw [show ((1 : ℚ).num.toNat) = 1 from by norm_num]
  rw [show ((1 : ℚ).den) = 1 from by norm_num]
  rw [show natSqrtFloor 1 = 1 from by decide]
  norm_num

/-- Evaluation of the concrete square root model at 4; the real square
root of 4 is also exactly 2. -/
theorem ratSqrt_four : ratSqrt 4 = 2 := by
  rw [ratSqrt]
  rw [if_neg (by norm_num)]
  rw [show ((4 : ℚ).num.toNat) = 4 from by
    rw [show ((4 : ℚ).num) = 4 from by norm_num]
    decide]
  rw [show ((4 : ℚ).den) = 1 from by norm_num]
  rw [show natSqrtFloor 4 = 2 from by decide]
  rw [show natSqrtFloor 1 = 1 from by decide]
  norm_num

/-- Evaluation helper for small index ranges. -/
theorem rangeOne : List.range 1 = [0] := by decide

/-- Evaluation helper for small index ranges. -/
theorem rangeTwo : List.range 2 = [0, 1] := by decide

/-- Evaluation helper for small index ranges. -/
theorem rangeFour : List.range 4 = [0, 1, 2, 3] := by decide

/-- Evaluation helper for pivot scan ranges. -/
theorem rangeAux10 : List.range' 1 0 = [] := by decide

/-- Evaluation helper for pivot scan ranges. -/
theorem rangeAux11 : List.range' 1 1 = [1] := by decide

/-- Evaluation helper for pivot scan ranges. -/
theorem rangeAux20 : List.range' 2 0 = [] := by decide

/-- C3: every optimizer emits between 1 and maxIterations + 1 states
(default budget 100), its convergence flag is true exactly when the final
emitted state has gradient norm below tolerance (default 1e-6), and no
state before the final one is below tolerance, i.e. the loop returns
immediately at the first below-tolerance state and reports exhaustion
otherwise. -/
theorem claim_C3 (msqrt : ℚ → ℚ) (func : ObjectiveFunction) (x0 : Vec)
    (params : OptimizerParamsP) :
    terminationSpec (params.tolerance.getD defaultTolerance)
      (params.maxIterations.getD defaultMaxIterations)
      (gradientDescent msqrt func x0 params) ∧
    terminationSpec (params.tolerance.getD defaultTolerance)
      (params.maxIterations.getD defaultMaxIterations)
      (newtonOptimize msqrt func x0 params) ∧
    terminationSpec (params.tolerance.getD defaultTolerance)
      (params.maxIterations.getD defaultMaxIterations)
      (bfgsOptimize msqrt func x0 params) ∧
    terminationSpec (params.tolerance.getD defaultTolerance)
      (params.maxIterations.getD defaultMaxIterations)
      (dfpOptimize msqrt func x0 params) ∧
    terminationSpec (params.tolerance.getD defaultTolerance)
      (params.maxIterations.getD defaultMaxIterations)
      (sr1Optimize msqrt func x0 params) ∧
    terminationSpec (params.tolerance.getD defaultTolerance)
      (params.maxIterations.getD defaultMaxIterations)
      (barzilaiBotweinOptimize msqrt func x0 params) ∧
    terminationSpec (params.tolerance.getD defaultTolerance)
      (params.maxIterations.getD defaultMaxIterations)
      (trustRegionOptimize msqrt func x0 params) := by
  refine ⟨?_, ?_, ?_, ?_, ?_, ?_, ?_⟩
  · simp only [gradientDescent, terminationSpec]
    obtain ⟨h1, h2, h3, h4, h5, h6, h7⟩ := gdGo_props msqrt func
      (params.tolerance.getD defaultTolerance) (params.maxIterations.getD defaultMaxIterations)
      ((params.maxIterations.getD defaultMaxIterations) + 1) 0 x0 (func.gradient x0) 0 1
      (by omega) (by omega)
    exact ⟨h4, h5, h2, h1⟩
  · simp only [newtonOptimize, terminationSpec]
    obtain ⟨h1, h2, h3, h4, h5, h6, h7, h8⟩ := newtonGo_props msqrt func
      (params.tolerance.getD defaultTolerance) (params.maxIterations.getD defaultMaxIterations)
      ((params.maxIterations.getD defaultMaxIterations) + 1) 0 x0 none none 0 0
      (by omega) (by omega)
    exact ⟨h4, h5, h2, h1⟩
  · simp only [bfgsOptimize, terminationSpec]
    obtain ⟨h1, h2, h3, h4, h5, h6, h7, h8⟩ := bfgsGo_props msqrt func
      (params.tolerance.getD defaultTolerance) (params.maxIterations.getD defaultMaxIterations)
      ((params.maxIterations.getD defaultMaxIterations) + 1) 0 x0 (func.gradient x0)
      (params.initialHessianApprox.getD (identity x0.length)) 0 1
      (by omega) (by omega)
    exact ⟨h4, h5, h2, h1⟩
  · simp only [dfpOptimize, terminationSpec]
    obtain ⟨h1, h2, h3, h4, h5, h6, h7, h8⟩ := dfpGo_props msqrt func
      (params.tolerance.getD defaultTolerance) (params.maxIterations.getD defaultMaxIterations)
      ((params.maxIterations.getD defaultMaxIterations) + 1) 0 x0 (func.gradient x0)
      (params.initialHessianApprox.getD (identity x0.length)) 0 1
      (by omega) (by omega)
    exact ⟨h4, h5, h2, h1⟩
  · simp only [sr1Optimize, terminationSpec]
    obtain ⟨h1, h2, h3, h4, h5, h6, h7, h8⟩ := sr1Go_props msqrt func
      (params.tolerance.getD defaultTolerance) (params.maxIterations.getD defaultMaxIterations)
      ((params.maxIterations.getD defaultMaxIterations) + 1) 0 x0 (func.gradient x0)
      (params.initialHessianApprox.getD (identity x0.length)) 0 1
      (by omega) (by omega)
    exact ⟨h4, h5, h2, h1⟩
  · simp only [barzilaiBotweinOptimize, terminationSpec]
    obtain ⟨h1, h2, h3, h4, h5, h6, h7⟩ := bbGo_props msqrt func
      (params.tolerance.getD defaultTolerance) (params.maxIterations.getD defaultMaxIterations)
      ((params.maxIterations.getD defaultMaxIterations) + 1) 0 x0 (func.gradient x0) 1 0 1
      (by omega) (by omega)
    exact ⟨h4, h5, h2, h1⟩
  · simp only [trustRegionOptimize, terminationSpec]
    obtain ⟨h1, h2, h3, h4, h5⟩ := trGo_props msqrt func
      (params.tolerance.getD defaultTolerance) (params.maxIterations.getD defaultMaxIterations)
      ((params.maxIterations.getD defaultMaxIterations) + 1) 0 x0 1 0 0
      (by omega) (by omega)
    exact ⟨h3, h4, h2, h1⟩

/-- C1 (amended): in every run of every optimizer, every emitted state
except the final one stores the non-null direction and step chosen there
(including iteration 0, contrary to the original claim); in gradient
descent, BFGS, DFP, SR1 and BB the final state has null direction and null
alpha; in trust region every state stores the radius in alpha (never null,
contrary to the original claim) and the final state has null direction; in
Newton the final state repeats the direction and alpha of the state before
it, so its direction and alpha are null only in a single-state run. -/
theorem claim_C1_amended (msqrt : ℚ → ℚ) (func : ObjectiveFunction) (x0 : Vec)
    (params : OptimizerParamsP) :
    tailNullPattern (gradientDescent msqrt func x0 params).iterations = true ∧
    tailNullPattern (bfgsOptimize msqrt func x0 params).iterations = true ∧
    tailNullPattern (dfpOptimize msqrt func x0 params).iterations = true ∧
    tailNullPattern (sr1Optimize msqrt func x0 params).iterations = true ∧
    tailNullPattern (barzilaiBotweinOptimize msqrt func x0 params).iterations = true ∧
    tailNullPatternTR (trustRegionOptimize msqrt func x0 params).iterations = true ∧
    newtonTailPattern none none (newtonOptimize msqrt func x0 params).iterations = true := by
  refine ⟨?_, ?_, ?_, ?_, ?_, ?_, ?_⟩
  · simp only [gradientDescent]
    exact (gdGo_props msqrt func
      (params.tolerance.getD defaultTolerance) (params.maxIterations.getD defaultMaxIterations)
      ((params.maxIterations.getD defaultMaxIterations) + 1) 0 x0 (func.gradient x0) 0 1
      (by omega) (by omega)).2.2.2.2.2.1
  · simp only [bfgsOptimize]
    exact (bfgsGo_props msqrt func
      (params.tolerance.getD defaultTolerance) (params.maxIterations.getD defaultMaxIterations)
      ((params.maxIterations.getD defaultMaxIterations) + 1) 0 x0 (func.gradient x0)
      (params.initialHessianApprox.getD (identity x0.length)) 0 1
      (by omega) (by omega)).2.2.2.2.2.1
  · simp only [dfpOptimize]
    exact (dfpGo_props msqrt func
      (params.tolerance.getD defaultTolerance) (params.maxIterations.getD defaultMaxIterations)
      ((params.maxIterations.getD defaultMaxIterations) + 1) 0 x0 (func.gradient x0)
      (params.initialHessianApprox.getD (identity x0.length)) 0 1
      (by omega) (by omega)).2.2.2.2.2.1
  · simp only [sr1Optimize]
    exact (sr1Go_props msqrt func
      (params.tolerance.getD defaultTolerance) (params.maxIterations.getD defaultMaxIterations)
      ((params.maxIterations.getD defaultMaxIterations) + 1) 0 x0 (func.gradient x0)
      (params.initialHessianApprox.getD (identity x0.length)) 0 1
      (by omega) (by omega)).2.2.2.2.2.1
  · simp only [barzilaiBotweinOptimize]
    exact (bbGo_props msqrt func
      (params.tolerance.getD defaultTolerance) (params.maxIterations.getD defaultMaxIterations)
      ((params.maxIterations.getD defaultMaxIterations) + 1) 0 x0 (func.gradient x0) 1 0 1
      (by omega) (by omega)).2.2.2.2.2.1
  · simp only [trustRegionOptimize]
    exact (trGo_props msqrt func
      (params.tolerance.getD defaultTolerance) (params.maxIterations.getD defaultMaxIterations)
      ((params.maxIterations.getD defaultMaxIterations) + 1) 0 x0 1 0 0
      (by omega) (by omega)).2.2.2.2
  · simp only [newtonOptimize]
    have h6 := (newtonGo_props msqrt func
      (params.tolerance.getD defaultTolerance) (params.maxIterations.getD defaultMaxIterations)
      ((params.maxIterations.getD defaultMaxIterations) + 1) 0 x0 none none 0 0
      (by omega) (by omega)).2.2.2.2.2.1
    simpa using h6

set_option maxRecDepth 16384 in
set_option maxHeartbeats 1000000 in
/-- C1 counterexample: on f(t) = t * t from x0 = 1, gradient descent takes
one step and converges, and the state at index 0 stores the non-null
direction of that step, contradicting iterations[0].direction === null;
and the trust region run stores alpha = 1 (the radius) already at
iteration 0, contradicting iterations[0].alpha === null. -/
theorem claim_C1_counterexample :
    ((gradientDescent ratSqrt sqObjective [1]
        { maxIterations := some 1 }).iterations.headD dummyState).direction ≠ none ∧
    ((trustRegionOptimize ratSqrt sqObjective [1]
        { maxIterations := some 0 }).iterations.headD dummyState).alpha ≠ none := by
  constructor
  · have h : ((gradientDescent ratSqrt sqObjective [1]
        { maxIterations := some 1 }).iterations.headD dummyState).direction = some [-2] := by
      norm_num [gradientDescent, gdGo, backtracking, btGo, sqObjective, norm, dot, add, scale,
        identity, defaultTolerance, defaultC1, defaultLsMaxIterations, defaultInitialAlpha,
        ratSqrt_four, ratSqrt_zero, rangeOne, rangeAux10]
    rw [h]
    simp
  · have h : ((trustRegionOptimize ratSqrt sqObjective [1]
        { maxIterations := some 0 }).iterations.headD dummyState).alpha = some 1 := by
      norm_num [trustRegionOptimize, trGo, sqObjective, norm, dot, defaultTolerance,
        inverse, gjInversePath, gjGo, pivotScan, rowSwap, normalizeRow, eliminate, getE,
        ratSqrt_four, rangeOne, rangeAux10]
    rw [h]
    simp

/-- C2 (amended): for every consecutive pair of emitted states of gradient
descent, Newton, BFGS, DFP, SR1 and BB, the later point equals the earlier
point plus the stored alpha times the stored direction, exactly.  The trust
region optimizer is excluded: it stores the radius in alpha and keeps x
unchanged on rejected steps. -/
theorem claim_C2_amended (msqrt : ℚ → ℚ) (func : ObjectiveFunction) (x0 : Vec)
    (params : OptimizerParamsP) :
    List.Chain' stepRel (gradientDescent msqrt func x0 params).iterations ∧
    List.Chain' stepRel (newtonOptimize msqrt func x0 params).iterations ∧
    List.Chain' stepRel (bfgsOptimize msqrt func x0 params).iterations ∧
    List.Chain' stepRel (dfpOptimize msqrt func x0 params).iterations ∧
    List.Chain' stepRel (sr1Optimize msqrt func x0 params).iterations ∧
    List.Chain' stepRel (barzilaiBotweinOptimize msqrt func x0 params).iterations := by
  refine ⟨?_, ?_, ?_, ?_, ?_, ?_⟩
  · simp only [gradientDescent]
    exact (gdGo_props msqrt func
      (params.tolerance.getD defaultTolerance) (params.maxIterations.getD defaultMaxIterations)
      ((params.maxIterations.getD defaultMaxIterations) + 1) 0 x0 (func.gradient x0) 0 1
      (by omega) (by omega)).2.2.2.2.2.2
  · simp only [newtonOptimize]
    exact (newtonGo_props msqrt func
      (params.tolerance.getD defaultTolerance) (params.maxIterations.getD defaultMaxIterations)
      ((params.maxIterations.getD defaultMaxIterations) + 1) 0 x0 none none 0 0
      (by omega) (by omega)).2.2.2.2.2.2.1
  · simp only [bfgsOptimize]
    exact (bfgsGo_props msqrt func
      (params.tolerance.getD defaultTolerance) (params.maxIterations.getD defaultMaxIterations)
      ((params.maxIterations.getD defaultMaxIterations) + 1) 0 x0 (func.gradient x0)
      (params.initialHessianApprox.getD (identity x0.length)) 0 1
      (by omega) (by omega)).2.2.2.2.2.2.1
  · simp only [dfpOptimize]
    exact (dfpGo_props msqrt func
      (params.tolerance.getD defaultTolerance) (params.maxIterations.getD defaultMaxIterations)
      ((params.maxIterations.getD defaultMaxIterations) + 1) 0 x0 (func.gradient x0)
      (params.initialHessianApprox.getD (identity x0.length)) 0 1
      (by omega) (by omega)).2.2.2.2.2.2.1
  · simp only [sr1Optimize]
    exact (sr1Go_props msqrt func
      (params.tolerance.getD defaultTolerance) (params.maxIterations.getD defaultMaxIterations)
      ((params.maxIterations.getD defaultMaxIterations) + 1) 0 x0 (func.gradient x0)
      (params.initialHessianApprox.getD (identity x0.length)) 0 1
      (by omega) (by omega)).2.2.2.2.2.2.1
  · simp only [barzilaiBotweinOptimize]
    exact (bbGo_props msqrt func
      (params.tolerance.getD defaultTolerance) (params.maxIterations.getD defaultMaxIterations)
      ((params.maxIterations.getD defaultMaxIterations) + 1) 0 x0 (func.gradient x0) 1 0 1
      (by omega) (by omega)).2.2.2.2.2.2

set_option maxRecDepth 16384 in
set_option maxHeartbeats 2000000 in
/-- C2 counterexample: on f(t) = -(t * t) from x0 = 1 with budget 1, the
trust region optimizer rejects its first step (the quadratic model
predicts no reduction), so the stored direction is [-1] and the stored
alpha is the radius 1, yet the next state keeps x = [1] instead of
x + alpha * direction = [0]. -/
theorem claim_C2_counterexample :
    ¬ List.Chain' stepRel
      (trustRegionOptimize ratSqrt negSqObjective [1] { maxIterations := some 1 }).iterations := by
  have hr : (trustRegionOptimize ratSqrt negSqObjective [1]
      { maxIterations := some 1 }).iterations =
      [⟨[1], -1, [-2], 2, some [-1], some 1, [[-1/2]], [[-2]], 0⟩,
       ⟨[1], -1, [-2], 2, none, some (1/4), [[-1/2]], [[-2]], 1⟩] := by
    norm_num [trustRegionOptimize, trGo, negSqObjective, norm, dot, add, scale, sub,
      defaultTolerance, inverse, gjInversePath, gjGo, pivotScan, rowSwap, normalizeRow,
      eliminate, getE, solveTrustRegionSubproblem, quadraticModelReduction,
      ratSqrt_four, ratSqrt_one, ratSqrt_zero, rangeOne, rangeAux10]
  rw [hr]
  intro hch
  obtain ⟨d, a, hd, ha, hx⟩ := (List.chain'_cons'.mp hch).1 _ rfl
  simp only [Option.some.injEq] at hd ha
  subst hd
  subst ha
  norm_num [add, scale] at hx

/-- C9: the function evaluation counter of Newton equals the number of
emitted states plus a flat 2 for every step taken (the line search costs
are not counted; the final value computed after budget exhaustion is not
counted either), for every objective, start point and parameters. -/
theorem claim_C9 (msqrt : ℚ → ℚ) (func : ObjectiveFunction) (x0 : Vec)
    (params : OptimizerParamsP) :
    (newtonOptimize msqrt func x0 params).functionEvaluations =
      (newtonOptimize msqrt func x0 params).iterations.length +
        2 * ((newtonOptimize msqrt func x0 params).iterations.length - 1) ∧
    1 ≤ (newtonOptimize msqrt func x0 params).iterations.length := by
  have hp := newtonGo_props msqrt func
    (params.tolerance.getD defaultTolerance) (params.maxIterations.getD defaultMaxIterations)
    ((params.maxIterations.getD defaultMaxIterations) + 1) 0 x0 none none 0 0
    (by omega) (by omega)
  have h1 := hp.1
  have h8 := hp.2.2.2.2.2.2.2
  simp only [newtonOptimize]
  have hpos := List.length_pos.mpr h1
  exact ⟨by omega, by omega⟩

/-- C8 (amended): in SR1, whenever the quasi-Newton direction -H * g is
not a descent direction the stored direction is the plain negative
gradient, and the step length always comes from the backtracking search
(SR1 never uses the Wolfe search, fallback or not); in BFGS and DFP the
stored direction is always -H * g with no descent fallback at all, and the
step length always comes from the Wolfe search (whose own precondition
check returns alpha = 0 for a non-descent direction). -/
theorem claim_C8_amended (msqrt : ℚ → ℚ) (func : ObjectiveFunction) (x0 : Vec)
    (params : OptimizerParamsP) :
    sr1StepSpec func (sr1Optimize msqrt func x0 params).iterations ∧
    quasiNewtonWolfeStepSpec func (bfgsOptimize msqrt func x0 params).iterations ∧
    quasiNewtonWolfeStepSpec func (dfpOptimize msqrt func x0 params).iterations := by
  refine ⟨?_, ?_, ?_⟩
  · simp only [sr1Optimize]
    exact (sr1Go_props msqrt func
      (params.tolerance.getD defaultTolerance) (params.maxIterations.getD defaultMaxIterations)
      ((params.maxIterations.getD defaultMaxIterations) + 1) 0 x0 (func.gradient x0)
      (params.initialHessianApprox.getD (identity x0.length)) 0 1
      (by omega) (by omega)).2.2.2.2.2.2.2
  · simp only [bfgsOptimize]
    exact (bfgsGo_props msqrt func
      (params.tolerance.getD defaultTolerance) (params.maxIterations.getD defaultMaxIterations)
      ((params.maxIterations.getD defaultMaxIterations) + 1) 0 x0 (func.gradient x0)
      (params.initialHessianApprox.getD (identity x0.length)) 0 1
      (by omega) (by omega)).2.2.2.2.2.2.2
  · simp only [dfpOptimize]
    exact (dfpGo_props msqrt func
      (params.tolerance.getD defaultTolerance) (params.maxIterations.getD defaultMaxIterations)
      ((params.maxIterations.getD defaultMaxIterations) + 1) 0 x0 (func.gradient x0)
      (params.initialHessianApprox.getD (identity x0.length)) 0 1
      (by omega) (by omega)).2.2.2.2.2.2.2

/-- C8 counterexample: BFGS run on f(t) = t with the caller-supplied
initial approximation H = [[-1]]; at iteration 0 the quasi-Newton
direction -H * g = [1] satisfies direction . gradient = 1 >= 0, yet the
stored direction is [1] itself, not the steepest descent fallback
-g = [-1] claimed by the specification (BFGS has no such fallback). -/
theorem claim_C8_counterexample :
    ((bfgsOptimize ratSqrt linObjective [0]
        { maxIterations := some 1, initialHessianApprox := some [[-1]] }).iterations.getD 0
      dummyState) =
      ⟨[0], 0, [1], 1, some [1], some 0, [[-1]], [[0]], 0⟩ ∧
    0 ≤ dot (scale (matVec [[-1]] [1]) (-1)) [1] ∧
    some [(1 : ℚ)] ≠ some (scale [(1 : ℚ)] (-1)) := by
  refine ⟨?_, by norm_num [dot, matVec, scale], by norm_num [scale]⟩
  norm_num [bfgsOptimize, bfgsGo, bfgsUpdate, wolfeLineSearch, linObjective, norm, dot,
    add, scale, sub, matVec, identity, defaultTolerance, defaultC1, defaultC2,
    defaultLsMaxIterations, defaultInitialAlpha, ratSqrt_one, rangeOne]

/-- Helper: the elimination loop returns null exactly when some column scan
finds its largest pivot candidate below 1e-12. -/
theorem gjGo_none_iff (n : ℕ) :
    ∀ fuel col aug, gjGo n fuel col aug = none ↔ gjSmallPivot n fuel col aug = true := by
  intro fuel
  induction fuel with
  | zero => intro col aug; simp [gjGo, gjSmallPivot]
  | succ m ih =>
    intro col aug
    rw [gjGo, gjSmallPivot]
    by_cases hp : (pivotScan aug col n).2 < 1 / 1000000000000
    · rw [if_pos hp, if_pos hp]
      simp
    · rw [if_neg hp, if_neg hp]
      exact ih (col + 1) _

/-- C6 counterexample: the 2x2 matrix [[1e-7, 1], [1e-7, 1 + 1e-7]] has
determinant 1e-14, so `inverse` (through its closed-form 2x2 branch)
returns null, although every pivot candidate met by the Gauss-Jordan
partial-pivoting path is 1e-7, far above 1e-12, and that path inverts the
matrix; so null is not returned exactly when the largest pivot candidate
falls below 1e-12. -/
theorem claim_C6_counterexample :
    inverse [[1 / 10000000, 1], [1 / 10000000, 1 + 1 / 10000000]] = none ∧
    (gjInversePath [[1 / 10000000, 1], [1 / 10000000, 1 + 1 / 10000000]]).isSome = true := by
  constructor
  · norm_num [inverse, inverse2x2, getE, abs_of_pos]
  · norm_num [gjInversePath, gjGo, pivotScan, rowSwap, normalizeRow, eliminate, getE,
      rangeTwo, rangeAux11, rangeAux20, abs_of_pos]

/-- C6 (amended): `inverse` returns null for non-square input; for 2x2 it
uses the closed-form adjugate over determinant formula and returns null
exactly when the absolute determinant is below 1e-12 (not a pivot
criterion); for every other square size it runs Gauss-Jordan elimination
with partial pivoting over the augmented matrix and returns null exactly
when some largest pivot candidate falls below 1e-12; and
inverse([[1,2],[2,4]]) is null. -/
theorem claim_C6_amended :
    (∀ a b c d : ℚ, inverse [[a, b], [c, d]] =
      if |a * d - b * c| < 1 / 1000000000000 then none
      else some (matScale [[d, -b], [-c, a]] (1 / (a * d - b * c)))) ∧
    inverse [[1, 2], [2, 4]] = none ∧
    (∀ m : Mat, m.length ≠ (m.headD []).length → inverse m = none) ∧
    (∀ m : Mat, m.length = (m.headD []).length → m.length ≠ 2 →
      inverse m = gjInversePath m ∧
      (inverse m = none ↔ gjSmallPivot m.length m.length 0
        (List.zipWith
          (fun i row => row ++ (List.range m.length).map
            (fun j => if i = j then (1 : ℚ) else 0))
          (List.range m.length) m) = true)) := by
  refine ⟨?_, ?_, ?_, ?_⟩
  · intro a b c d
    have hd : inverse [[a, b], [c, d]] = inverse2x2 [[a, b], [c, d]] := by
      simp only [inverse]
      rw [if_neg (by simp), if_pos (by simp)]
    rw [hd, inverse2x2]
    simp only [getE, List.getD_cons_zero, List.getD_cons_succ]
    by_cases h : |a * d - b * c| < 1 / 1000000000000
    · rw [if_pos h, if_pos h]
    · rw [if_neg h, if_neg h]
      simp only [matScale, List.map_cons, List.map_nil, Option.some.injEq,
        List.cons.injEq, and_true]
  · norm_num [inverse, inverse2x2, getE]
  · intro m hm
    simp only [inverse]
    rw [if_pos hm]
  · intro m hsq h2
    have hinv : inverse m = gjInversePath m := by
      simp only [inverse]
      rw [if_neg (fun hne => hne hsq), if_neg h2]
    refine ⟨hinv, ?_⟩
    rw [hinv]
    rw [← gjGo_none_iff]
    simp only [gjInversePath]
    cases hg : gjGo m.length m.length 0
        (List.zipWith
          (fun i row => row ++ (List.range m.length).map
            (fun j => if i = j then (1 : ℚ) else 0))
          (List.range m.length) m) with
    | none => simp [hg]
    | some aug2 => simp [hg]

/-- The instrumented Wolfe loop computes the same result as the plain one. -/
theorem wolfeGoT_fst (f : Vec → ℚ) (grad : Vec → Vec) (x d : Vec) (fx dg0 c1 c2 : ℚ) :
    ∀ fuel i aLo aHi alpha fLo ev trials doubled,
      (wolfeGoT f grad x d fx dg0 c1 c2 fuel i aLo aHi alpha fLo ev trials doubled).1 =
        wolfeGo f grad x d fx dg0 c1 c2 fuel i aLo aHi alpha fLo ev := by
  intro fuel
  induction fuel with
  | zero => intro i aLo aHi alpha fLo ev trials doubled; rfl
  | succ n ih =>
    intro i aLo aHi alpha fLo ev trials doubled
    simp only [wolfeGoT, wolfeGo]
    by_cases h1 : f (add x (scale d alpha)) > fx + c1 * alpha * dg0 ∨
        (0 < i ∧ fLo ≤ f (add x (scale d alpha)))
    · rw [if_pos h1]
      by_cases hc : |alpha - aLo| < (1000000000000 : ℚ)⁻¹
      · simp [hc]
      · simp [hc]
        exact ih _ _ _ _ _ _ _ _
    · rw [if_neg h1]
      by_cases h2 : |dot (grad (add x (scale d alpha))) d| ≤ -c2 * dg0
      · rw [if_pos h2]
      · rw [if_neg h2]
        by_cases h3 : 0 ≤ dot (grad (add x (scale d alpha))) d
        · rw [if_pos h3]
          by_cases hc : |alpha - aLo| < (1000000000000 : ℚ)⁻¹
          · simp [hc]
          · simp [hc]
            exact ih _ _ _ _ _ _ _ _
        · rw [if_neg h3]
          cases aHi with
          | none =>
            simp
            exact ih _ _ _ _ _ _ _ _
          | some hi =>
            by_cases hc : |hi - alpha| < (1000000000000 : ℚ)⁻¹
            · simp [hc]
            · simp [hc]
              exact ih _ _ _ _ _ _ _ _

/-- Bracket invariant of the instrumented Wolfe loop: starting from a
bracket contained in [0, M] and a trial inside [0, M], every recorded
trial, the returned step and the final trial stay in [0, M], and the
alpha-doubling branch is never executed (the upper end is always a finite
value of the bracket). -/
theorem wolfeGoT_inv (f : Vec → ℚ) (grad : Vec → Vec) (x d : Vec) (fx dg0 c1 c2 M : ℚ) :
    ∀ fuel i aLo hi alpha fLo ev trials,
      0 ≤ aLo → aLo ≤ M → 0 ≤ hi → hi ≤ M → 0 ≤ alpha → alpha ≤ M →
      trials.all (fun a => decide (0 ≤ a ∧ a ≤ M)) = true →
      ((wolfeGoT f grad x d fx dg0 c1 c2 fuel i aLo (some hi) alpha fLo ev trials
          false).2.1.all (fun a => decide (0 ≤ a ∧ a ≤ M)) = true) ∧
      0 ≤ (wolfeGoT f grad x d fx dg0 c1 c2 fuel i aLo (some hi) alpha fLo ev trials
        false).1.alpha ∧
      (wolfeGoT f grad x d fx dg0 c1 c2 fuel i aLo (some hi) alpha fLo ev trials
        false).1.alpha ≤ M ∧
      (wolfeGoT f grad x d fx dg0 c1 c2 fuel i aLo (some hi) alpha fLo ev trials
        false).2.2 = false := by
  intro fuel
  induction fuel with
  | zero =>
    intro i aLo hi alpha fLo ev trials h1 h2 h3 h4 h5 h6 htr
    exact ⟨htr, h5, h6, rfl⟩
  | succ n ih =>
    intro i aLo hi alpha fLo ev trials haLo1 haLo2 hhi1 hhi2 hal1 hal2 htr
    have htr2 : (trials ++ [alpha]).all (fun a => decide (0 ≤ a ∧ a ≤ M)) = true := by
      rw [List.all_append, htr]
      simp [hal1, hal2]
    have htr4 : ∀ a ∈ trials, 0 ≤ a ∧ a ≤ M := fun a h =>
      of_decide_eq_true (List.all_eq_true.mp htr a h)
    simp only [wolfeGoT]
    by_cases h1 : f (add x (scale d alpha)) > fx + c1 * alpha * dg0 ∨
        (0 < i ∧ fLo ≤ f (add x (scale d alpha)))
    · rw [if_pos h1]
      have hm1 : 0 ≤ (aLo + alpha) / 2 := by linarith
      have hm2 : (aLo + alpha) / 2 ≤ M := by linarith
      by_cases hc : |alpha - aLo| < (1000000000000 : ℚ)⁻¹
      · simp [hc, hal1, hal2, hm1, hm2]
        exact htr4
      · have hrec := ih (i + 1) aLo alpha ((aLo + alpha) / 2) fLo (ev + 1)
          (trials ++ [alpha]) haLo1 haLo2 hal1 hal2 hm1 hm2 htr2
        simpa [hc] using hrec
    · rw [if_neg h1]
      by_cases h2 : |dot (grad (add x (scale d alpha))) d| ≤ -c2 * dg0
      · rw [if_pos h2]
        exact ⟨htr2, hal1, hal2, rfl⟩
      · rw [if_neg h2]
        by_cases h3 : 0 ≤ dot (grad (add x (scale d alpha))) d
        · rw [if_pos h3]
          have hm1 : 0 ≤ (aLo + alpha) / 2 := by linarith
          have hm2 : (aLo + alpha) / 2 ≤ M := by linarith
          by_cases hc : |alpha - aLo| < (1000000000000 : ℚ)⁻¹
          · simp [hc, hal1, hal2, hm1, hm2]
            exact htr4
          · have hrec := ih (i + 1) aLo alpha ((aLo + alpha) / 2) fLo (ev + 1 + 1)
              (trials ++ [alpha]) haLo1 haLo2 hal1 hal2 hm1 hm2 htr2
            simpa [hc] using hrec
        · rw [if_neg h3]
          have hm1 : 0 ≤ (alpha + hi) / 2 := by linarith
          have hm2 : (alpha + hi) / 2 ≤ M := by linarith
          by_cases hc : |hi - alpha| < (1000000000000 : ℚ)⁻¹
          · simp [hc, hal1, hal2, hm1, hm2]
            exact htr4
          · have hrec := ih (i + 1) alpha hi ((alpha + hi) / 2)
              (f (add x (scale d alpha))) (ev + 1 + 1)
              (trials ++ [alpha]) hal1 hal2 hhi1 hhi2 hm1 hm2 htr2
            simpa [hc] using hrec

/-- C10: when the initial directional derivative is negative (and the
initial step parameter is nonnegative, as presupposed by calling
[0, 2 * initialAlpha] a bracket), every trial step of the Wolfe search,
and the returned step, lie in [0, 2 * initialAlpha]; the alpha-doubling
branch guarded by an infinite upper bracket end is never executed, since
the upper end starts at the finite 2 * initialAlpha and is only ever
lowered to a finite trial; the instrumented search agrees with
`wolfeLineSearch`. -/
theorem claim_C10 (f : Vec → ℚ) (grad : Vec → Vec) (x d : Vec) (params : LineSearchParamsP)
    (hdesc : dot (grad x) d < 0)
    (halpha : 0 ≤ params.initialAlpha.getD defaultInitialAlpha) :
    ((wolfeLineSearchT f grad x d params).2.1.all (fun a =>
        decide (0 ≤ a ∧ a ≤ 2 * params.initialAlpha.getD defaultInitialAlpha)) = true) ∧
    0 ≤ (wolfeLineSearchT f grad x d params).1.alpha ∧
    (wolfeLineSearchT f grad x d params).1.alpha ≤
      2 * params.initialAlpha.getD defaultInitialAlpha ∧
    (wolfeLineSearchT f grad x d params).2.2 = false ∧
    (wolfeLineSearchT f grad x d params).1 = wolfeLineSearch f grad x d params := by
  have hns : ¬ 0 ≤ dot (grad x) d := not_le.mpr hdesc
  simp only [wolfeLineSearchT, wolfeLineSearch]
  rw [if_neg hns, if_neg hns]
  obtain ⟨k1, k2, k3, k4⟩ := wolfeGoT_inv f grad x d (f x) (dot (grad x) d)
    (params.c1.getD defaultC1) (params.c2.getD defaultC2)
    (2 * params.initialAlpha.getD defaultInitialAlpha)
    (params.maxIterations.getD defaultLsMaxIterations) 0 0
    (params.initialAlpha.getD defaultInitialAlpha * 2)
    (params.initialAlpha.getD defaultInitialAlpha) (f x) 1 []
    le_rfl (by linarith) (by linarith) (by linarith) halpha (by linarith) (by simp)
  exact ⟨k1, k2, k3, k4, wolfeGoT_fst f grad x d (f x) (dot (grad x) d)
    (params.c1.getD defaultC1) (params.c2.getD defaultC2)
    (params.maxIterations.getD defaultLsMaxIterations) 0 0
    (some (params.initialAlpha.getD defaultInitialAlpha * 2))
    (params.initialAlpha.getD defaultInitialAlpha) (f x) 1 [] false⟩

/-- C10 witness: a concrete descent instance on the stiff objective. -/
theorem claim_C10_witness :
    dot (steepObjective.gradient [0]) [1] < 0 ∧
    0 ≤ (({ maxIterations := some 1 } : LineSearchParamsP).initialAlpha.getD
      defaultInitialAlpha) ∧
    (wolfeLineSearchT steepObjective.value steepObjective.gradient [0] [1]
      { maxIterations := some 1 }).2.2 = false := by
  have h1 : dot (steepObjective.gradient [0]) [1] < 0 := by norm_num [steepObjective, dot]
  have h2 : 0 ≤ (({ maxIterations := some 1 } : LineSearchParamsP).initialAlpha.getD
      defaultInitialAlpha) := by norm_num [defaultInitialAlpha]
  exact ⟨h1, h2, (claim_C10 steepObjective.value steepObjective.gradient [0] [1]
    { maxIterations := some 1 } h1 h2).2.2.2.1⟩

/-! ### Matrix entry and shape lemmas for claim C7 -/

/-- `mul` has one output row per row of its left factor. -/
theorem length_mul (a b : Mat) : (mul a b).length = a.length := by
  simp [mul]

/-- Row `i` of `mul a b` is the column-dot map of row `i` of `a`. -/
theorem mul_row (a b : Mat) (i : ℕ) (hi : i < a.length) :
    (mul a b).getD i [] =
      (List.range (b.headD []).length).map (fun j => colDot (a.getD i []) b j) := by
  have h2 : i < (mul a b).length := by simpa [length_mul] using hi
  rw [List.getD_eq_getElem _ _ h2, List.getD_eq_getElem _ _ hi]
  simp [mul]

/-- Entry `(i, j)` of `mul a b` is the column dot product, for in-range
indices. -/
theorem getE_mul (a b : Mat) (i j : ℕ) (hi : i < a.length)
    (hj : j < (b.headD []).length) :
    getE (mul a b) i j = colDot (a.getD i []) b j := by
  rw [getE, mul_row a b i hi]
  have hj2 : j < ((List.range (b.headD []).length).map
      (fun j => colDot (a.getD i []) b j)).length := by simpa using hj
  rw [List.getD_eq_getElem _ _ hj2]
  simp

/-- `colDot` as a finite sum of entry products, when the row length matches
the number of rows of `b`. -/
theorem colDot_eq_sum (j : ℕ) (row : Vec) : ∀ (b : Mat), row.length = b.length →
    colDot row b j = ∑ k ∈ Finset.range row.length, row.getD k 0 * getE b k j := by
  induction row with
  | nil => intro b _; simp [colDot]
  | cons v row ih =>
    intro b h
    cases b with
    | nil => simp at h
    | cons brow bt =>
      have h2 : row.length = bt.length := by simpa using h
      simp only [colDot, List.zipWith_cons_cons, List.sum_cons, List.length_cons]
      rw [Finset.sum_range_succ']
      simp only [getE, List.getD_cons_succ, List.getD_cons_zero]
      have hih := ih bt h2
      simp only [colDot, getE] at hih
      rw [← hih]
      exact add_comm _ _

/-- A nonempty square matrix's default head row has length `n`. -/
theorem headD_length {n : ℕ} {b : Mat} (hb : IsMatN n b) (hn : 0 < n) :
    (b.headD []).length = n := by
  obtain ⟨hb1, hb2⟩ := hb
  cases b with
  | nil => simp only [List.length_nil] at hb1; omega
  | cons r t => simpa using hb2 0 hn

/-- `identity n` is an `n × n` matrix. -/
theorem isMatN_identity (n : ℕ) : IsMatN n (identity n) := by
  constructor
  · simp [identity]
  · intro i hi
    have hi2 : i < (identity n).length := by simpa [identity] using hi
    rw [List.getD_eq_getElem _ _ hi2]
    simp [identity]

/-- `matScale` preserves the square shape. -/
theorem isMatN_matScale {n : ℕ} {m : Mat} (h : IsMatN n m) (c : ℚ) :
    IsMatN n (matScale m c) := by
  refine ⟨by simpa [matScale] using h.1, fun i hi => ?_⟩
  have him : i < m.length := by rw [h.1]; exact hi
  have hi2 : i < (matScale m c).length := by simpa [matScale, h.1] using hi
  rw [List.getD_eq_getElem _ _ hi2]
  simp only [matScale, List.getElem_map, List.length_map]
  rw [← List.getD_eq_getElem m [] him]
  exact h.2 i hi

/-- `outer a b` has `a.length` rows of length `b.length`. -/
theorem isMatN_outer {n : ℕ} {a b : Vec} (ha : a.length = n) (hb : b.length = n) :
    IsMatN n (outer a b) := by
  refine ⟨by simpa [outer] using ha, fun i hi => ?_⟩
  have hi2 : i < (outer a b).length := by simpa [outer, ha] using hi
  rw [List.getD_eq_getElem _ _ hi2]
  simp [outer, hb]

/-- `matAdd` of two `n × n` matrices is `n × n`. -/
theorem isMatN_matAdd {n : ℕ} {a b : Mat} (ha : IsMatN n a) (hb : IsMatN n b) :
    IsMatN n (matAdd a b) := by
  refine ⟨by simp [matAdd, ha.1, hb.1], fun i hi => ?_⟩
  have hia : i < a.length := by rw [ha.1]; exact hi
  have hib : i < b.length := by rw [hb.1]; exact hi
  have hi2 : i < (matAdd a b).length := by simp [matAdd, ha.1, hb.1]; exact hi
  rw [List.getD_eq_getElem _ _ hi2]
  simp only [matAdd, List.getElem_zipWith, List.length_zipWith]
  rw [← List.getD_eq_getElem a [] hia, ← List.getD_eq_getElem b [] hib]
  rw [ha.2 i hi, hb.2 i hi]
  simp

/-- `mul` of two `n × n` matrices is `n × n` (for nonempty `n`). -/
theorem isMatN_mul {n : ℕ} {a b : Mat} (ha : IsMatN n a) (hb : IsMatN n b)
    (hn : 0 < n) : IsMatN n (mul a b) := by
  have hhead := headD_length hb hn
  refine ⟨by simp [mul, ha.1], fun i hi => ?_⟩
  rw [mul_row a b i (by rw [ha.1]; exact hi)]
  simpa using hhead

/-- Entry `(i, j)` of a product of `n × n` matrices as a finite sum. -/
theorem getE_mul_sum {n : ℕ} (a b : Mat) (i j : ℕ) (ha : IsMatN n a)
    (hb : IsMatN n b) (hn : 0 < n) (hi : i < n) (hj : j < n) :
    getE (mul a b) i j = ∑ k ∈ Finset.range n, getE a i k * getE b k j := by
  have hhead := headD_length hb hn
  rw [getE_mul a b i j (by rw [ha.1]; exact hi) (by rw [hhead]; exact hj)]
  rw [colDot_eq_sum j (a.getD i []) b (by rw [ha.2 i hi, hb.1])]
  rw [ha.2 i hi]
  simp [getE]

/-- Two `n × n` matrices with the same entries are equal. -/
theorem matExt {n : ℕ} {a b : Mat} (ha : IsMatN n a) (hb : IsMatN n b)
    (h : ∀ i j, i < n → j < n → getE a i j = getE b i j) : a = b := by
  obtain ⟨ha1, ha2⟩ := ha
  obtain ⟨hb1, hb2⟩ := hb
  apply List.ext_getElem (by rw [ha1, hb1])
  intro i h1 h2
  have hi : i < n := by rwa [ha1] at h1
  have hra : a[i] = a.getD i [] := (List.getD_eq_getElem a [] h1).symm
  have hrb : b[i] = b.getD i [] := (List.getD_eq_getElem b [] h2).symm
  apply List.ext_getElem
  · rw [hra, hrb, ha2 i hi, hb2 i hi]
  · intro j hj1 hj2
    have hj : j < n := by rw [hra, ha2 i hi] at hj1; exact hj1
    have hentry := h i j hi hj
    rw [getE, getE, ← hra, ← hrb] at hentry
    rw [← List.getD_eq_getElem a[i] 0 hj1, ← List.getD_eq_getElem b[i] 0 hj2]
    exact hentry

/-- The library matrix product is associative on `n × n` matrices. -/
theorem mul_assoc_mat {n : ℕ} {L H R : Mat} (hL : IsMatN n L) (hH : IsMatN n H)
    (hR : IsMatN n R) : mul (mul L H) R = mul L (mul H R) := by
  rcases Nat.eq_zero_or_pos n with hn | hn
  · have hL0 : L = [] := List.eq_nil_of_length_eq_zero (by rw [hL.1]; exact hn)
    rw [hL0]
    rfl
  · have hLH := isMatN_mul hL hH hn
    have hHR := isMatN_mul hH hR hn
    apply matExt (isMatN_mul hLH hR hn) (isMatN_mul hL hHR hn)
    intro i j hi hj
    rw [getE_mul_sum (mul L H) R i j hLH hR hn hi hj,
      getE_mul_sum L (mul H R) i j hL hHR hn hi hj]
    have e1 : ∀ k ∈ Finset.range n, getE (mul L H) i k * getE R k j =
        ∑ l ∈ Finset.range n, getE L i l * getE H l k * getE R k j := by
      intro k hk
      rw [getE_mul_sum L H i k hL hH hn hi (Finset.mem_range.mp hk), Finset.sum_mul]
    have e2 : ∀ l ∈ Finset.range n, getE L i l * getE (mul H R) l j =
        ∑ k ∈ Finset.range n, getE L i l * (getE H l k * getE R k j) := by
      intro l hl
      rw [getE_mul_sum H R l j hH hR hn (Finset.mem_range.mp hl) hj, Finset.mul_sum]
    rw [Finset.sum_congr rfl e1, Finset.sum_congr rfl e2, Finset.sum_comm]
    apply Finset.sum_congr rfl
    intro k _
    apply Finset.sum_congr rfl
    intro l _
    ring

/-- C7: for every square matrix `H` and vectors `s`, `y` of matching
dimension, `bfgsUpdate H s y` keeps `H` exactly when `rho = 1 / (y . s)`
is non-finite (exact arithmetic: `y . s = 0`) or nonpositive, and
otherwise returns `(I - rho s yT) * H * (I - rho y sT) + rho s sT`: it
equals the specification's formula `bfgsUpdateClaim`, whose products are
the library `mul` associated as written; the source computes
`leftTerm * (H * rightTerm)`, which agrees by associativity of the
matrix product on square matrices. -/
theorem claim_C7 (H : Mat) (s y : Vec) (hH : IsMatN s.length H)
    (hy : y.length = s.length) :
    bfgsUpdate H s y = bfgsUpdateClaim H s y := by
  have hmul : ∀ (a b : Mat), a.map (fun row =>
      (List.range (b.headD []).length).map (fun j => colDot row b j)) = mul a b :=
    fun _ _ => rfl
  simp only [bfgsUpdate, bfgsUpdateClaim]
  by_cases hc : dot y s = 0 ∨ 1 / dot y s ≤ 0
  · rw [if_pos hc, if_pos hc]
  · rw [if_neg hc, if_neg hc]
    rw [hmul, hmul]
    have hL := isMatN_matAdd (isMatN_identity s.length)
      (isMatN_matScale (isMatN_outer rfl hy) (-(1 / dot y s)))
    have hR := isMatN_matAdd (isMatN_identity s.length)
      (isMatN_matScale (isMatN_outer hy rfl) (-(1 / dot y s)))
    rw [mul_assoc_mat hL hH hR]

/-- C7 witness: the identity 2 by 2 matrix with s = y = (1, 0). -/
theorem claim_C7_witness :
    IsMatN ([1, 0] : Vec).length ([[1, 0], [0, 1]] : Mat) ∧
    ([1, 0] : Vec).length = ([1, 0] : Vec).length ∧
    bfgsUpdate [[1, 0], [0, 1]] [1, 0] [1, 0] =
      bfgsUpdateClaim [[1, 0], [0, 1]] [1, 0] [1, 0] :=
  ⟨⟨rfl, by decide⟩, rfl,
    claim_C7 [[1, 0], [0, 1]] [1, 0] [1, 0] ⟨rfl, by decide⟩ rfl⟩

end QND
